import Mathlib

/-
Verification of the navigation controller of the pytwitch repository
(file src/twitch/app.py) against its natural-language specification.

The data model and the operations are shallowly embedded:

* pure formatting and merging code (App.merge_with_online, the label
  builders of App.show_videos / App.show_clips, the selection-string
  resolution of App.show_follows and App.show_online_follows) becomes
  pure Lean functions on String / List;
* the recursive screen flow (App.show_items, App.show_menu,
  App.show_follows_and_online, App.show_follows, App.show_online_follows,
  App.show_info, App.show_videos, App.show_clips) becomes a fuel-indexed
  interpreter over a writer/state monad that records a trace of
  observable events (menu prompts, log warnings, notifications, player
  launches, API fetches) and threads the memoized follow cache;
* the external collaborators (Twitch API client, menu program, icon and
  delimiter configuration) are an environment record: API answers are
  fixed functions, and the menu program's replies are an oracle indexed
  by how many prompts have been shown so far.

Python peculiarities kept faithfully: dict comprehensions are ordered
maps with last-value-wins on key collision, the user_follows cache test
is a falsiness test (None and the empty list both refetch), list.index
returns the first matching position, str.split(" ") keeps empty fields,
and App.show_clips lacks a return after its no-results branch.
-/

namespace PyTwitch

/-! ## Data model (twitch.datatypes, fields used by app.py) -/

/-- ChannelUserFollows: a followed relationship, keyed by display name and id. -/
structure Follow where
  to_name : String
  to_id : String
  deriving DecidableEq, Repr

/-- LiveStreamInfo: a currently-broadcasting followed channel. -/
structure Stream where
  user_name : String
  title : String
  viewer_count : Nat
  started_at : String
  deriving DecidableEq, Repr

/-- TwitchClip: fields used by App.show_clips and App.play_clip_selected. -/
structure Clip where
  title : String
  creator_name : String
  view_count : Nat
  created_at : String
  url : String
  broadcaster_name : String
  deriving DecidableEq, Repr

/-- Video: fields used by App.show_videos. -/
structure Video where
  title : String
  duration : String
  view_count : Nat
  url : String
  deriving DecidableEq, Repr

/-- BroadcasterInfo: fields used by App.show_info. -/
structure Broadcaster where
  broadcaster_id : String
  broadcaster_name : String
  title : String
  game_name : String
  deriving DecidableEq, Repr

/-! ## Python string and dict primitives used by app.py -/

/-- Python s[:40] - a hard character cut. -/
def take40 (s : String) : String := String.mk (s.toList.take 40)

/-- Python s[:50]. -/
def take50 (s : String) : String := String.mk (s.toList.take 50)

/-- Python str.split(" ") on the character level: split at every single
space, keeping empty fields. -/
def splitChar : List Char → List (List Char)
  | [] => [[]]
  | c :: cs =>
    match splitChar cs with
    | [] => [[]]
    | t :: ts => if c = ' ' then [] :: t :: ts else (c :: t) :: ts

/-- Python selected.split(" "). -/
def splitOnSpace (s : String) : List String := (splitChar s.toList).map String.mk

/-- Python substring containment (the in operator) on the character
level: does p occur contiguously in the list? -/
def containsSub (p : List Char) : List Char → Bool
  | [] => p.isEmpty
  | c :: cs => p.isPrefixOf (c :: cs) || containsSub p cs

/-- The part of a character list before the first occurrence of the
(nonempty) pattern d; the whole list when d does not occur. -/
def breakAtSub (d : List Char) : List Char → List Char
  | [] => []
  | c :: cs => if d.isPrefixOf (c :: cs) then [] else c :: breakAtSub d cs

/-- Python s.split(d)[0] for a nonempty delimiter d (the prefix of s up
to the first occurrence of d). For d = "" Python raises; we return s. -/
def pySplitHead (s d : String) : String :=
  if d.toList.isEmpty then s else String.mk (breakAtSub d.toList s.toList)

/-- Python s.strip(): drop whitespace from both ends. -/
def pyStrip (s : String) : String :=
  String.mk (((s.toList.dropWhile Char.isWhitespace).reverse.dropWhile Char.isWhitespace).reverse)

/-- Python list.index: position of the first element equal to x. -/
def pyIndex (x : String) : List String → Nat
  | [] => 0
  | y :: ys => if y = x then 0 else pyIndex x ys + 1

/-- Python sorted() on strings: insert into an ascending list. -/
def pyInsert (x : String) : List String → List String
  | [] => [x]
  | y :: ys => if x ≤ y then x :: y :: ys else y :: pyInsert x ys

/-- Python sorted() on strings (lexicographic insertion sort). -/
def pySorted (l : List String) : List String := l.foldr pyInsert []

/-- One Python dict insertion: an existing key keeps its position and
takes the new value, a new key is appended. -/
def dictInsert {α : Type} (k : String) (v : α) : List (String × α) → List (String × α)
  | [] => [(k, v)]
  | p :: ps => if p.1 = k then (k, v) :: ps else p :: dictInsert k v ps

/-- A Python dict built from a list of key-value pairs in order
(insertion order preserved, last value wins on a key collision). -/
def pyDict {α : Type} (pairs : List (String × α)) : List (String × α) :=
  pairs.foldl (fun d p => dictInsert p.1 p.2 d) []

/-- Python dict[k]: the value at the first (unique) matching key. -/
def dictLookup {α : Type} (k : String) : List (String × α) → Option α
  | [] => none
  | p :: ps => if p.1 = k then some p.2 else dictLookup k ps

/-- Python list(dict.keys()). -/
def dictKeys {α : Type} (d : List (String × α)) : List String := d.map Prod.fst

/-- Python list(dict.values()). -/
def dictVals {α : Type} (d : List (String × α)) : List α := d.map Prod.snd

/-! ## Environment: external collaborators and configuration -/

/-- The external collaborators of the App object, as fixed data: the
Twitch client's fetch results, the configured icons and delimiter, the
menu program's back sentinel, and an oracle giving the menu program's
reply to the i-th prompt of the run.  helpers.calculate_live_time and
helpers.clean_string are code of the repository that is not under src/,
so they appear here as the fields liveTime and the definition
clean_string below, modelled from the spec. -/
structure Env where
  follows : List Follow
  liveStreams : List Stream
  liveMenu : List Stream
  info : String → Broadcaster
  is_online : String → Bool
  videos : String → List Video
  clips : String → List Clip
  oracle : Nat → String
  backStr : String
  live_icon : String
  delimiter : String
  eye : String
  bullet : String
  clock : String
  calendar : String
  liveTime : String → String

/-- Modelled from the spec: helpers.clean_string (not under src/) strips
the live-icon decoration from a selected label; per section 4.1 of the
spec the extraction must tolerate the icon decoration, so the model
removes the icon when it is the leading decoration and otherwise leaves
the string unchanged. -/
def clean_string (s icon : String) : String :=
  if icon.toList.isPrefixOf s.toList then String.mk (s.toList.drop icon.toList.length) else s

/-! ## Formatter: label builders (app.py lines 148-161, 173-176, 277-280) -/

/-- The annotated label merge_with_online writes for a live stream:
live_icon, user_name, delimiter, truncated title, then parenthesized
viewer count and live duration (app.py lines 156-158). -/
def annotate (env : Env) (c : Stream) : String :=
  env.live_icon ++ " " ++ c.user_name ++ " " ++ env.delimiter ++ " " ++ take40 c.title
    ++ " (" ++ env.eye ++ toString c.viewer_count ++ " viewers " ++ env.delimiter ++ " "
    ++ env.liveTime c.started_at ++ ")"

/-- The label App.show_clips builds for the idx-th clip (app.py lines
277-280), including the source's literal spelling of createor. -/
def clipLabel (env : Env) (i : Nat) (c : Clip) : String :=
  toString i ++ " " ++ env.bullet ++ " " ++ take40 c.title ++ " createor: " ++ c.creator_name
    ++ " (" ++ env.eye ++ toString c.view_count ++ " views " ++ env.delimiter ++ " "
    ++ env.calendar ++ " " ++ c.created_at ++ ")"

/-- The label App.show_videos builds for the i-th video (app.py lines
173-176). -/
def videoLabel (env : Env) (i : Nat) (v : Video) : String :=
  toString i ++ " " ++ env.bullet ++ " " ++ take50 v.title ++ " " ++ env.delimiter ++ " "
    ++ env.clock ++ v.duration ++ " (" ++ env.eye ++ toString v.view_count ++ " views)"

/-- The ordered label-to-clip dict of App.show_clips. -/
def clipsDict (env : Env) (clips : List Clip) : List (String × Clip) :=
  pyDict ((clips.enum).map fun p => (clipLabel env p.1 p.2, p.2))

/-- The ordered label-to-video dict of App.show_videos. -/
def videosDict (env : Env) (vids : List Video) : List (String × Video) :=
  pyDict ((vids.enum).map fun p => (videoLabel env p.1 p.2, p.2))

/-! ## Live-Status Merger (App.merge_with_online, app.py lines 148-161) -/

/-- One iteration of the merge loop: when the stream's user_name occurs
in the (already partially rewritten) list, overwrite the first matching
position with the annotated label. -/
def mergeStep (env : Env) (acc : List String) (c : Stream) : List String :=
  if c.user_name ∈ acc then acc.set (pyIndex c.user_name acc) (annotate env c) else acc

/-- App.merge_with_online: fold the merge loop over the live streams. -/
def merge_with_online (env : Env) (names : List String) : List String :=
  env.liveStreams.foldl (mergeStep env) names

/-! ## Selection resolution (app.py lines 118-119 and 143-146) -/

/-- The selection resolution of App.show_follows: when the live icon
occurs in the selected label, take the second space-separated token,
else the selection itself (app.py lines 143-146; a missing token is a
Python IndexError, represented as none). -/
def followsResolve (env : Env) (selected : String) : Option String :=
  if containsSub env.live_icon.toList selected.toList then (splitOnSpace selected).get? 1
  else some selected

/-- The selection resolution of App.show_online_follows (app.py lines
118-119): clean_string, split at the delimiter, take the head, strip. -/
def onlineExtract (env : Env) (s : String) : String :=
  pyStrip (pySplitHead (clean_string s env.live_icon) env.delimiter)

/-! ## The memoized user_follows property (app.py lines 49-54) -/

/-- Python falsiness of the _user_follows cache slot: None and the empty
list are both falsy. -/
def pyFalsy (cache : Option (List Follow)) : Bool :=
  match cache with
  | none => true
  | some l => l.isEmpty

/-- One access to the user_follows property: when the cache slot is
falsy, fetch and store; otherwise return the cached list.  Result:
(returned value, new cache slot, whether a fetch was issued). -/
def user_follows_access (fetched : List Follow) (cache : Option (List Follow)) :
    List Follow × Option (List Follow) × Bool :=
  if pyFalsy cache then (fetched, some fetched, true) else (cache.getD [], cache, false)

/-- The number of API fetches issued by n consecutive accesses to the
user_follows property starting from the given cache slot, when every
fetch returns the same collection. -/
def user_follows_count (fetched : List Follow) : Nat → Option (List Follow) → Nat
  | 0, _ => 0
  | n + 1, cache =>
    (cond (user_follows_access fetched cache).2.2 1 0)
      + user_follows_count fetched n (user_follows_access fetched cache).2.1

/-! ## Selection Gate classification (App.show_items, app.py lines 86-95) -/

/-- The three outcomes of the Selection Gate. -/
inductive SelClass where
  | knownItem
  | backNav
  | invalid
  deriving DecidableEq, Repr

/-- The classification App.show_items performs on a menu reply, in the
source's branch order: a reply absent from the offered items is invalid
(lines 86-90); a reply equal to the back sentinel with a bound fallback
is back navigation (lines 92-93); anything else is a known item
(line 95). -/
def classifySelection (items : List String) (backStr : String) (hasFallback : Bool)
    (reply : String) : SelClass :=
  if reply ∉ items then SelClass.invalid
  else if reply = backStr ∧ hasFallback then SelClass.backNav
  else SelClass.knownItem

/-! ## The navigation interpreter -/

/-- The screen a menu prompt belongs to. -/
inductive Tag where
  | root
  | follows
  | online
  | info
  | videos
  | clips
  | missing
  | noResults
  deriving DecidableEq, Repr

/-- Observable events of a run: menu prompts (with the offered items),
log warnings, desktop notifications, player launches, fallback
invocations, entry into a screen, and API fetches. -/
inductive Event where
  | prompt (tag : Tag) (items : List String)
  | logWarn (s : String)
  | notify (s : String)
  | playStream (target : String)
  | launchClip (url : String)
  | callFallback
  | enterInfo (uid : String)
  | enterClips (id : String)
  | enterVideos (id : String)
  | followFetch
  | liveFetch
  | clipFetch (id : String)
  | videoFetch (id : String)
  deriving DecidableEq, Repr

/-- Abnormal termination of a run: sys.exit(1) (the only exit call in
app.py), a raised exception (NotImplementedError, KeyError or
IndexError), or fuel exhaustion of the interpreter. -/
inductive Abort where
  | exitOne
  | raised
  | fuelOut
  deriving DecidableEq, Repr

/-- A return value of a screen: None, a selected string, or the
ChannelUserFollows record App.show_follows returns. -/
inductive RVal where
  | unit
  | str (s : String)
  | fol (f : Follow)
  deriving DecidableEq, Repr

/-- Mutable process state: the _user_follows cache slot and the number
of menu prompts answered so far (the oracle index). -/
structure St where
  cache : Option (List Follow)
  tick : Nat
  deriving Repr

/-- The interpreter monad: state plus an Except-style abort plus a
writer trace of events. -/
def M (α : Type) : Type := St → Except Abort α × St × List Event

/-- Monadic return for M. -/
def mPure {α : Type} (a : α) : M α := fun s => (Except.ok a, s, [])

/-- Monadic bind for M: an abort in the first computation skips the
second; traces concatenate in order. -/
def mBind {α β : Type} (m : M α) (f : α → M β) : M β := fun s =>
  match (m s).1 with
  | Except.ok a =>
    ((f a (m s).2.1).1, (f a (m s).2.1).2.1, (m s).2.2 ++ (f a (m s).2.1).2.2)
  | Except.error e => (Except.error e, (m s).2.1, (m s).2.2)

instance : Monad M where
  pure := mPure
  bind := mBind

/-- Record one event. -/
def emit (e : Event) : M Unit := fun s => (Except.ok PUnit.unit, s, [e])

/-- One blocking call to the menu program: the reply is the oracle's
answer at the current tick. -/
def getReply (env : Env) : M String :=
  fun s => (Except.ok (env.oracle s.tick), { s with tick := s.tick + 1 }, [])

/-- sys.exit(1). -/
def exitOneM {α : Type} : M α := fun s => (Except.error Abort.exitOne, s, [])

/-- A raised exception propagating out of the navigation. -/
def raiseM {α : Type} : M α := fun s => (Except.error Abort.raised, s, [])

/-- Interpreter fuel exhausted. -/
def fuelErr {α : Type} : M α := fun s => (Except.error Abort.fuelOut, s, [])

/-- The user_follows property (app.py lines 49-54): a falsy cache slot
(unset, or holding an empty list) triggers a fetch that is stored;
a non-falsy slot is returned as is. -/
def userFollowsM (env : Env) : M (List Follow) := fun s =>
  if pyFalsy s.cache then
    (Except.ok env.follows, { s with cache := some env.follows }, [Event.followFetch])
  else (Except.ok (s.cache.getD []), s, [])

/-- App.show_no_results_message: log a warning and show the message as a
single-item menu through the raw menu boundary (one reply is consumed
and discarded). -/
def noResultsM (env : Env) (msg : String) : M Unit := do
  emit (Event.logWarn msg)
  emit (Event.prompt Tag.noResults [msg])
  let _ ← getReply env
  pure PUnit.unit

/-- App.play_stream_selected: notification plus player launch on the
stream or url (both fire-and-forget). -/
def playStreamM (_env : Env) (stream : String) : M Unit := do
  emit (Event.notify ("Opening stream <b>" ++ stream ++ "</b>"))
  emit (Event.playStream stream)

/-- A navigation call: one of the screen methods of App, or one
App.show_items invocation (items offered, bound fallback). -/
inductive Call where
  | show_menu
  | show_follows_and_online
  | show_follows
  | show_online_follows
  | show_info (uid : String)
  | show_videos (ch : Broadcaster)
  | show_clips (ch : Broadcaster) (cached : Option (List Clip))
  | items (tag : Tag) (opts : List String) (fb : Option Call)

/-- The informational message of App.handle_missing_option (line 100). -/
def missingMsg (selected : String) : String :=
  "Option '" ++ selected ++ "' selected not found."

/-- The selected string out of a show_items result. -/
def asStr : RVal → String
  | RVal.str s => s
  | _ => ""

/-- The invalid-selection path of App.show_items (lines 86-90 together
with handle_missing_option, lines 97-100): log a warning, show the
informational missing-option screen (itself a show_items call), invoke
the fallback when one is bound, then sys.exit(1). -/
def itemsInvalid (_env : Env) (recur : Call → M RVal) (fb : Option Call)
    (selected : String) : M String := do
  emit (Event.logWarn selected)
  let _ ← recur (Call.items Tag.missing [missingMsg selected] none)
  match fb with
  | some f => do
    emit Event.callFallback
    let _ ← recur f
    exitOneM
  | none => exitOneM

/-- App.show_items (lines 70-100): present the items, read one reply;
a reply absent from the items takes the invalid-selection path; a reply
equal to the back sentinel with a bound fallback invokes the fallback
and then returns the reply; any other reply is returned.  recur
interprets a navigation call at the next smaller fuel. -/
def itemsBody (env : Env) (recur : Call → M RVal) (tag : Tag) (opts : List String)
    (fb : Option Call) : M String := do
  emit (Event.prompt tag opts)
  let selected ← getReply env
  if selected ∈ opts then
    match fb with
    | some f =>
      if selected = env.backStr then do
        emit Event.callFallback
        let _ ← recur f
        pure selected
      else pure selected
    | none => pure selected
  else itemsInvalid env recur fb selected

/-- App.show_menu (lines 194-205): two root options dispatching to the
follows screen or the online-follows screen. -/
def menuBody (env : Env) (recur : Call → M RVal) : M RVal := do
  let allLabel := env.bullet ++ " All follows"
  let liveLabel := env.bullet ++ " Live followed"
  let r ← recur (Call.items Tag.root [allLabel, liveLabel] none)
  let selected := asStr r
  if selected = allLabel then do
    let _ ← recur Call.show_follows_and_online
    pure RVal.unit
  else if selected = liveLabel then do
    let _ ← recur Call.show_online_follows
    pure RVal.unit
  else raiseM

/-- App.show_follows_and_online (lines 122-127): show the follows screen
and then the info screen of the chosen follow. -/
def fandoBody (_env : Env) (recur : Call → M RVal) : M RVal := do
  let r ← recur Call.show_follows
  match r with
  | RVal.fol f => do
    let _ ← recur (Call.show_info f.to_id)
    pure RVal.unit
  | _ => raiseM

/-- App.show_follows (lines 129-146): build the name-to-follow dict from
the memoized user_follows, sort the names, merge the live annotations,
present them (fallback show_menu), then resolve the selection back to a
follow record (a failed dict lookup is a Python KeyError). -/
def followsBody (env : Env) (recur : Call → M RVal) : M RVal := do
  let ufs ← userFollowsM env
  let follows := pyDict (ufs.map fun u => (u.to_name, u))
  emit Event.liveFetch
  let merged := merge_with_online env (pySorted (dictKeys follows))
  let r ← recur (Call.items Tag.follows merged (some Call.show_menu))
  match followsResolve env (asStr r) with
  | none => raiseM
  | some key =>
    match dictLookup key follows with
    | some f => pure (RVal.fol f)
    | none => raiseM

/-- App.show_online_follows (lines 106-120): the currently-live channels
by user_name; empty set shows the no-results message, otherwise the
selection is cleaned, split at the delimiter, stripped, and played. -/
def onlineBody (env : Env) (recur : Call → M RVal) : M RVal := do
  let d := pyDict (env.liveMenu.map fun c => (c.user_name, c))
  if (dictKeys d).isEmpty then do
    noResultsM env "No online followed channels"
    pure RVal.unit
  else do
    let r ← recur (Call.items Tag.online (dictKeys d) (some Call.show_menu))
    playStreamM env (onlineExtract env (asStr r))
    pure RVal.unit

/-- App.show_info (lines 207-251): fetch channel info, present the info
lines (fallback show_follows_and_online), then the source's sequence of
non-exclusive prefix tests: Clips, Videos, Last (NotImplementedError),
the live icon (play the stream), and finally the unconditional recursive
redraw of the same screen. -/
def infoBody (env : Env) (recur : Call → M RVal) (uid : String) : M RVal := do
  emit (Event.enterInfo uid)
  let ch := env.info uid
  let line1 := "Category: " ++ ch.game_name
  let line2 :=
    if env.is_online uid then env.live_icon ++ " Live Stream: " ++ ch.title
    else "Last Stream: " ++ ch.title
  let menuInfo := [line1, line2, String.mk (List.replicate line2.length '-'),
    "Videos: Get videos", "Clips: Get clips"]
  let r ← recur (Call.items Tag.info menuInfo (some Call.show_follows_and_online))
  let selected := asStr r
  let _ ← (if selected.startsWith "Clips" then do
      let _ ← recur (Call.show_clips ch none)
      pure PUnit.unit
    else pure PUnit.unit)
  let _ ← (if selected.startsWith "Videos" then do
      let _ ← recur (Call.show_videos ch)
      pure PUnit.unit
    else pure PUnit.unit)
  let _ ← (if selected.startsWith "Last" then (raiseM : M Unit) else pure PUnit.unit)
  let _ ← (if selected.startsWith env.live_icon then playStreamM env ch.broadcaster_name
    else pure PUnit.unit)
  let _ ← recur (Call.show_info uid)
  pure RVal.unit

/-- App.show_videos (lines 163-192): fetch the channel's videos on every
entry, build the labelled dict; an empty dict shows the no-results
message and returns to the info screen; otherwise present the labels
(fallback show_info), play the chosen video's url, and re-enter the same
screen. -/
def videosBody (env : Env) (recur : Call → M RVal) (ch : Broadcaster) : M RVal := do
  emit (Event.enterVideos ch.broadcaster_id)
  emit (Event.videoFetch ch.broadcaster_id)
  let d := videosDict env (env.videos ch.broadcaster_id)
  if (dictKeys d).isEmpty then do
    noResultsM env ("No available videos from followed channel: " ++ ch.broadcaster_name)
    let _ ← recur (Call.show_info ch.broadcaster_id)
    pure RVal.unit
  else do
    let r ← recur (Call.items Tag.videos (dictKeys d) (some (Call.show_info ch.broadcaster_id)))
    match dictLookup (asStr r) d with
    | none => raiseM
    | some v => do
      playStreamM env v.url
      let _ ← recur (Call.show_videos ch)
      pure RVal.unit

/-- App.show_clips from the clips_dict construction on (lines 275-296):
an empty dict shows the no-results message and enters the info screen
with no return statement, so control would fall through to the selection
prompt over the empty label list; a chosen clip is notified, launched,
and the screen re-enters itself passing the dict's values forward. -/
def clipsAfterFetch (env : Env) (recur : Call → M RVal) (ch : Broadcaster)
    (clips : List Clip) : M RVal := do
  let d := clipsDict env clips
  let _ ← (if (dictKeys d).isEmpty then do
      noResultsM env ("No available clips from followed channel: " ++ ch.broadcaster_name)
      let _ ← recur (Call.show_info ch.broadcaster_id)
      pure PUnit.unit
    else pure PUnit.unit)
  let r ← recur (Call.items Tag.clips (dictKeys d) (some (Call.show_info ch.broadcaster_id)))
  match dictLookup (asStr r) d with
  | none => raiseM
  | some c => do
    emit (Event.notify ("Opening clip <b>" ++ c.broadcaster_name ++ "@" ++ c.title ++ "</b>"))
    emit (Event.launchClip c.url)
    let _ ← recur (Call.show_clips ch (some (dictVals d)))
    pure RVal.unit

/-- App.show_clips (lines 256-296): fetch the clips unless a non-falsy
cached list was passed in, then continue with the clip dict. -/
def clipsBody (env : Env) (recur : Call → M RVal) (ch : Broadcaster)
    (cached : Option (List Clip)) : M RVal := do
  emit (Event.enterClips ch.broadcaster_id)
  let clips ← (match cached with
    | none => do
      emit (Event.clipFetch ch.broadcaster_id)
      pure (env.clips ch.broadcaster_id)
    | some l =>
      if l.isEmpty then do
        emit (Event.clipFetch ch.broadcaster_id)
        pure (env.clips ch.broadcaster_id)
      else pure l)
  clipsAfterFetch env recur ch clips

/-- One interpreter step: dispatch a navigation call to its screen body,
interpreting every nested call with recur. -/
def stepBody (env : Env) (recur : Call → M RVal) : Call → M RVal
  | Call.show_menu => menuBody env recur
  | Call.show_follows_and_online => fandoBody env recur
  | Call.show_follows => followsBody env recur
  | Call.show_online_follows => onlineBody env recur
  | Call.show_info uid => infoBody env recur uid
  | Call.show_videos ch => videosBody env recur ch
  | Call.show_clips ch cached => clipsBody env recur ch cached
  | Call.items tag opts fb => do
    let s ← itemsBody env recur tag opts fb
    pure (RVal.str s)

/-- The fuel-indexed interpreter of the navigation controller. -/
def run (env : Env) : Nat → Call → M RVal
  | 0, _ => fuelErr
  | Nat.succ n, c => stepBody env (run env n) c

/-- The trace of events a computation produces from a state. -/
def traceOf {α : Type} (m : M α) (s : St) : List Event := (m s).2.2

/-- The result of a computation from a state. -/
def resOf {α : Type} (m : M α) (s : St) : Except Abort α := (m s).1

/-- The process exit code an abort corresponds to: sys.exit(1) exits
with 1, and a raised exception also terminates the process with exit
code 1 (either caught by the top level in __main__.py, which returns 1,
or uncaught, which makes the Python interpreter exit with status 1);
fuel exhaustion is an artifact of the model and has no code. -/
def abortCode : Abort → Option Nat
  | Abort.exitOne => some 1
  | Abort.raised => some 1
  | Abort.fuelOut => none

/-! ## Basic lemmas about the string primitives -/

theorem toList_append (a b : String) : (a ++ b).toList = a.toList ++ b.toList := rfl

theorem mk_toList (s : String) : String.mk s.toList = s := rfl

/-- Every annotated label contains a space (the one after the icon). -/
theorem space_mem_annotate (env : Env) (c : Stream) : ' ' ∈ (annotate env c).toList := by
  simp [annotate, toList_append]

/-- A space-free string is never an annotated label. -/
theorem ne_annotate_of_nospace (env : Env) (c : Stream) (x : String)
    (hx : ' ' ∉ x.toList) : x ≠ annotate env c := by
  intro h
  exact hx (h ▸ space_mem_annotate env c)

theorem pyIndex_lt {x : String} : ∀ {l : List String}, x ∈ l → pyIndex x l < l.length := by
  intro l h
  induction l with
  | nil => cases h
  | cons y ys ih =>
    by_cases hy : y = x
    · simp [pyIndex, hy]
    · have hx : x ∈ ys := by
        cases h with
        | head => exact absurd rfl hy
        | tail _ h2 => exact h2
      simp only [pyIndex, if_neg hy, List.length_cons]
      exact Nat.succ_lt_succ (ih hx)

theorem getElem?_pyIndex {x : String} : ∀ {l : List String}, x ∈ l →
    l[pyIndex x l]? = some x := by
  intro l h
  induction l with
  | nil => cases h
  | cons y ys ih =>
    by_cases hy : y = x
    · simp [pyIndex, hy]
    · have hx : x ∈ ys := by
        cases h with
        | head => exact absurd rfl hy
        | tail _ h2 => exact h2
      simp only [pyIndex, if_neg hy]
      simpa using ih hx

/-- pyIndex finds the first occurrence. -/
theorem pyIndex_first {x : String} : ∀ {l : List String} {j : Nat},
    j < pyIndex x l → l[j]? ≠ some x := by
  intro l
  induction l with
  | nil => intro j h; simp [pyIndex] at h
  | cons y ys ih =>
    intro j h
    by_cases hy : y = x
    · simp [pyIndex, hy] at h
    · simp only [pyIndex, if_neg hy] at h
      cases j with
      | zero => simpa using hy
      | succ j =>
        simpa using ih (Nat.lt_of_succ_lt_succ h)

theorem mem_of_getElem?_some {x : String} : ∀ {l : List String} {i : Nat},
    l[i]? = some x → x ∈ l := by
  intro l
  induction l with
  | nil => intro i h; simp at h
  | cons y ys ih =>
    intro i h
    cases i with
    | zero => simp_all
    | succ i =>
      simp only [List.getElem?_cons_succ] at h
      exact List.mem_cons_of_mem y (ih h)

/-! ## Properties of the Live-Status Merger -/

/-- The per-index invariant of the merge loop: every slot holds either
the original name or the annotation of a live stream carrying exactly
that name. -/
def MergeInv (env : Env) (L A : List String) : Prop :=
  A.length = L.length ∧
    ∀ i, i < L.length →
      A[i]? = L[i]? ∨
        ∃ c, c ∈ env.liveStreams ∧ some c.user_name = L[i]? ∧ A[i]? = some (annotate env c)

theorem mergeStep_inv (env : Env) (L : List String)
    (hsp : ∀ c ∈ env.liveStreams, ' ' ∉ c.user_name.toList)
    (A : List String) (c : Stream) (hc : c ∈ env.liveStreams)
    (h : MergeInv env L A) : MergeInv env L (mergeStep env A c) := by
  obtain ⟨hlen, hA⟩ := h
  unfold mergeStep
  by_cases hmem : c.user_name ∈ A
  · simp only [if_pos hmem]
    constructor
    · simpa [List.length_set] using hlen
    · intro i hi
      by_cases hidx : i = pyIndex c.user_name A
      · subst hidx
        right
        refine ⟨c, hc, ?_, ?_⟩
        · -- the overwritten slot held the bare name c.user_name = L[i]
          have hslot := getElem?_pyIndex hmem
          rcases hA (pyIndex c.user_name A) hi with h1 | ⟨c2, _, h2, h3⟩
          · rw [← h1, hslot]
          · exfalso
            rw [hslot] at h3
            have : c.user_name = annotate env c2 := by
              injection h3
            exact ne_annotate_of_nospace env c2 c.user_name (hsp c hc) this
        · have hlt : pyIndex c.user_name A < A.length := pyIndex_lt hmem
          simp [List.getElem?_set, hlt]
      · rw [List.getElem?_set_ne (fun h2 => hidx h2.symm)]
        exact hA i hi
  · simp only [if_neg hmem]
    exact ⟨hlen, hA⟩

theorem merge_foldl_inv (env : Env) (L : List String)
    (hsp : ∀ c ∈ env.liveStreams, ' ' ∉ c.user_name.toList) :
    ∀ (S : List Stream), (∀ c ∈ S, c ∈ env.liveStreams) →
      ∀ (A : List String), MergeInv env L A → MergeInv env L (S.foldl (mergeStep env) A) := by
  intro S
  induction S with
  | nil => intro _ A h; exact h
  | cons c S ih =>
    intro hS A h
    have hc : c ∈ env.liveStreams := hS c (List.mem_cons_self c S)
    have hS2 : ∀ d ∈ S, d ∈ env.liveStreams := fun d hd => hS d (List.mem_cons_of_mem c hd)
    exact ih hS2 (mergeStep env A c) (mergeStep_inv env L hsp A c hc h)

/-- The conclusion of claim C1: the merge output has the input's length,
every slot is the unchanged input name or the annotation of a stream
carrying that exact name, and a name that is no stream's user_name comes
back byte-for-byte identical at its original index. -/
def MergeSpec (env : Env) (L : List String) : Prop :=
  (merge_with_online env L).length = L.length ∧
    (∀ i, i < L.length →
      (merge_with_online env L)[i]? = L[i]? ∨
        ∃ c, c ∈ env.liveStreams ∧ some c.user_name = L[i]? ∧
          (merge_with_online env L)[i]? = some (annotate env c)) ∧
    ∀ i, i < L.length → (∀ c ∈ env.liveStreams, some c.user_name ≠ L[i]?) →
      (merge_with_online env L)[i]? = L[i]?

/-- C1: for every sorted list of followed names L and every list of live
streams S (whose user names, as Twitch names, contain no space - an
annotated label always contains one), merge_with_online returns a list
of the same length as L in which the entry at every index i is either
the input name L at i, byte-for-byte unchanged, or the annotated label
built from a stream of S whose user_name is exactly L at i; in
particular a name that is no stream's user_name is returned unchanged,
and the relative order of entries is preserved index by index. -/
theorem c1_merge_order_length (env : Env) (L : List String)
    (hsp : ∀ c ∈ env.liveStreams, ' ' ∉ c.user_name.toList) :
    MergeSpec env L := by
  have hbase : MergeInv env L L := ⟨rfl, fun i _ => Or.inl rfl⟩
  have h := merge_foldl_inv env L hsp env.liveStreams (fun _ hc => hc) L hbase
  obtain ⟨hlen, hA⟩ := h
  refine ⟨hlen, hA, ?_⟩
  intro i hi habs
  rcases hA i hi with h1 | ⟨c, hc, h2, _⟩
  · exact h1
  · exact absurd h2 (habs c hc)

/-- Witness for c1_merge_order_length at a concrete environment: three
followed names of which one is live. -/
def envC1 : Env :=
  { follows := []
    liveStreams := [⟨"bob", "Speedrun", 120, "t"⟩]
    liveMenu := []
    info := fun _ => ⟨"", "", "", ""⟩
    is_online := fun _ => false
    videos := fun _ => []
    clips := fun _ => []
    oracle := fun _ => ""
    backStr := "BACK"
    live_icon := "L!"
    delimiter := "|"
    eye := "E"
    bullet := "*"
    clock := "c"
    calendar := "d"
    liveTime := fun _ => "1h" }

theorem c1_merge_order_length_witness :
    (∀ c ∈ envC1.liveStreams, ' ' ∉ c.user_name.toList) ∧
      MergeSpec envC1 ["alice", "bob", "carol"] :=
  ⟨by decide, c1_merge_order_length envC1 ["alice", "bob", "carol"] (by decide)⟩

/-! ## First-write-wins at a duplicated live name (claim C7) -/

/-- The label a name x ends up with after the merge has processed the
stream list P: the annotation of the first stream of P carrying x, or x
itself when none does. -/
def firstMatchLabel (env : Env) (P : List Stream) (x : String) : String :=
  match P.find? (fun c => c.user_name == x) with
  | some c => annotate env c
  | none => x

theorem find?_append_single (p : Stream → Bool) (c : Stream) : ∀ (P : List Stream),
    (P ++ [c]).find? p =
      match P.find? p with
      | some r => some r
      | none => if p c then some c else none := by
  intro P
  induction P with
  | nil => cases hp : p c <;> simp [List.find?, hp]
  | cons d P ih =>
    by_cases hd : p d
    · simp [List.find?, hd]
    · simp only [List.cons_append, List.find?, hd]
      simpa using ih

theorem nodup_getElem?_inj {L : List String} (hnd : L.Nodup) {i j : Nat} {x : String}
    (hi : L[i]? = some x) (hj : L[j]? = some x) : i = j := by
  induction L generalizing i j with
  | nil => simp at hi
  | cons y ys ih =>
    have hy : y ∉ ys := (List.nodup_cons.mp hnd).1
    have hnd2 : ys.Nodup := (List.nodup_cons.mp hnd).2
    cases i with
    | zero =>
      cases j with
      | zero => rfl
      | succ j =>
        simp only [List.getElem?_cons_zero] at hi
        simp only [List.getElem?_cons_succ] at hj
        exact absurd (mem_of_getElem?_some hj) (by
          injection hi with h
          exact h ▸ hy)
    | succ i =>
      cases j with
      | zero =>
        simp only [List.getElem?_cons_zero] at hj
        simp only [List.getElem?_cons_succ] at hi
        exact absurd (mem_of_getElem?_some hi) (by
          injection hj with h
          exact h ▸ hy)
      | succ j =>
        simp only [List.getElem?_cons_succ] at hi hj
        exact congrArg Nat.succ (ih hnd2 hi hj)

/-- The stronger merge invariant: every slot holds exactly the label
determined by the first matching stream among those already processed. -/
def FirstInv (env : Env) (L : List String) (P : List Stream) (A : List String) : Prop :=
  A.length = L.length ∧
    ∀ (i : Nat) (x : String), L[i]? = some x → A[i]? = some (firstMatchLabel env P x)

theorem mergeStep_first_inv (env : Env) (L : List String) (hnd : L.Nodup)
    (P : List Stream) (A : List String) (c : Stream)
    (hspc : ' ' ∉ c.user_name.toList)
    (h : FirstInv env L P A) : FirstInv env L (P ++ [c]) (mergeStep env A c) := by
  obtain ⟨hlen, hA⟩ := h
  unfold mergeStep
  by_cases hmem : c.user_name ∈ A
  · simp only [if_pos hmem]
    have hidx : pyIndex c.user_name A < A.length := pyIndex_lt hmem
    have hidxL : pyIndex c.user_name A < L.length := hlen ▸ hidx
    have hx0 : L[pyIndex c.user_name A]? = some (L.get ⟨pyIndex c.user_name A, hidxL⟩) :=
      List.getElem?_eq_getElem hidxL
    have hslot := getElem?_pyIndex hmem
    have hfm := hA (pyIndex c.user_name A) _ hx0
    rw [hslot] at hfm
    have hcu : c.user_name = firstMatchLabel env P (L.get ⟨pyIndex c.user_name A, hidxL⟩) := by
      injection hfm
    have hfind : P.find? (fun d => d.user_name == (L.get ⟨pyIndex c.user_name A, hidxL⟩)) = none := by
      cases hf : P.find? (fun d => d.user_name == (L.get ⟨pyIndex c.user_name A, hidxL⟩)) with
      | none => rfl
      | some c2 =>
        exfalso
        simp only [firstMatchLabel, hf] at hcu
        exact ne_annotate_of_nospace env c2 c.user_name hspc hcu
    have hx0eq : c.user_name = L.get ⟨pyIndex c.user_name A, hidxL⟩ := by
      simp only [firstMatchLabel, hfind] at hcu
      exact hcu
    refine ⟨by simpa [List.length_set] using hlen, ?_⟩
    intro i x hix
    by_cases hieq : i = pyIndex c.user_name A
    · subst hieq
      have hxx : x = L.get ⟨pyIndex c.user_name A, hidxL⟩ := by
        rw [hx0] at hix
        injection hix with h2
        exact h2.symm
      simp only [List.getElem?_set, hidx, if_pos, if_true]
      simp only [firstMatchLabel, find?_append_single, hxx, hfind]
      rw [List.get_eq_getElem] at hx0eq
      simp [← hx0eq]
    · rw [List.getElem?_set_ne (fun h2 => hieq h2.symm)]
      have hbase := hA i x hix
      rw [hbase]
      simp only [firstMatchLabel, find?_append_single]
      cases hf : P.find? (fun d => d.user_name == x) with
      | some c2 => simp
      | none =>
        have hne : c.user_name ≠ x := by
          intro hcx
          have hAi : A[i]? = some x := by
            rw [hbase]
            simp only [firstMatchLabel, hf]
          rcases Nat.lt_or_ge i (pyIndex c.user_name A) with hlt | hge
          · have hAc : A[i]? = some c.user_name := by rw [hcx]; exact hAi
            exact pyIndex_first hlt hAc
          · have hx0x : (L.get ⟨pyIndex c.user_name A, hidxL⟩) = x := by rw [← hx0eq, hcx]
            have : i = pyIndex c.user_name A :=
              nodup_getElem?_inj hnd hix (by rw [hx0, hx0x])
            exact hieq this
        simp [hne]
  · simp only [if_neg hmem]
    refine ⟨hlen, ?_⟩
    intro i x hix
    have hbase := hA i x hix
    rw [hbase]
    simp only [firstMatchLabel, find?_append_single]
    cases hf : P.find? (fun d => d.user_name == x) with
    | some c2 => simp
    | none =>
      have hne : c.user_name ≠ x := by
        intro hcx
        have hAi : A[i]? = some x := by
          rw [hbase]
          simp only [firstMatchLabel, hf]
        have : c.user_name ∈ A := by
          rw [hcx]
          exact mem_of_getElem?_some hAi
        exact hmem this
      simp [hne]

theorem merge_foldl_first_inv (env : Env) (L : List String) (hnd : L.Nodup) :
    ∀ (R : List Stream), (∀ c ∈ R, ' ' ∉ c.user_name.toList) →
      ∀ (P : List Stream) (A : List String), FirstInv env L P A →
        FirstInv env L (P ++ R) (R.foldl (mergeStep env) A) := by
  intro R
  induction R with
  | nil => intro _ P A h; simpa using h
  | cons c R ih =>
    intro hR P A h
    have hspc : ' ' ∉ c.user_name.toList := hR c (List.mem_cons_self c R)
    have hR2 : ∀ d ∈ R, ' ' ∉ d.user_name.toList := fun d hd => hR d (List.mem_cons_of_mem c hd)
    have hstep := mergeStep_first_inv env L hnd P A c hspc h
    have := ih hR2 (P ++ [c]) (mergeStep env A c) hstep
    simpa [List.append_assoc] using this

/-- C7 counterexample environment: the same user_name bob appears twice
in the live-stream list, with different titles and viewer counts, so the
two candidate annotations differ. -/
def envC7 : Env :=
  { envC1 with liveStreams := [⟨"bob", "A", 1, "t1"⟩, ⟨"bob", "B", 2, "t2"⟩] }

/-- C7 is false on the code: when the same user_name appears twice in
the live-stream list, the annotation written at that name's index comes
from the FIRST occurrence, not the last.  After the first stream
rewrites the slot, the bare name is no longer present in the list, so
the membership test of the second iteration fails and the second stream
is skipped.  Concretely, merging the single name bob with two bob
streams keeps the first stream's label and not the second's. -/
theorem c7_counterexample :
    merge_with_online envC7 ["bob"] = [annotate envC7 ⟨"bob", "A", 1, "t1"⟩] ∧
      merge_with_online envC7 ["bob"] ≠ [annotate envC7 ⟨"bob", "B", 2, "t2"⟩] := by
  constructor
  · decide
  · decide

/-- C7 amended: if the same user_name appears several times in the
live-stream list passed to the merge, the annotation written at that
name's index in the output is the one from the EARLIER (first)
occurrence in the stream list (first-write-wins at that index); later
occurrences no longer find the bare name and are ignored.  Stated for
duplicate-free name lists (Python dict keys) of space-free names: every
slot of the output equals firstMatchLabel, the label of the first
matching stream. -/
theorem c7_first_write_wins (env : Env) (L : List String)
    (hsp : ∀ c ∈ env.liveStreams, ' ' ∉ c.user_name.toList) (hnd : L.Nodup)
    (i : Nat) (x : String) (hix : L[i]? = some x) :
    (merge_with_online env L)[i]? = some (firstMatchLabel env env.liveStreams x) := by
  have hbase : FirstInv env L [] L := by
    refine ⟨rfl, ?_⟩
    intro i x hix
    simp only [firstMatchLabel, List.find?]
    exact hix
  have h := merge_foldl_first_inv env L hnd env.liveStreams hsp [] L hbase
  simp only [List.nil_append] at h
  exact h.2 i x hix

theorem c7_first_write_wins_witness :
    ((∀ c ∈ envC7.liveStreams, ' ' ∉ c.user_name.toList) ∧
        (["bob"] : List String).Nodup ∧ (["bob"] : List String)[0]? = some "bob") ∧
      (merge_with_online envC7 ["bob"])[0]? =
        some (firstMatchLabel envC7 envC7.liveStreams "bob") :=
  ⟨⟨by decide, by decide, by decide⟩,
    c7_first_write_wins envC7 ["bob"] (by decide) (by decide) 0 "bob" (by decide)⟩

/-- C8: for every reply string and every offered option set, with back
enabled or not, the selection classification of App.show_items assigns
exactly one of the three outcomes: it is invalid exactly when the reply
is not among the options, back navigation exactly when the reply is an
option equal to the back sentinel while a fallback is bound, and a known
item exactly otherwise; the three conditions are mutually exclusive and
exhaustive, so a reply equal to the back sentinel and also a member of
the option set still gets exactly one classification. -/
theorem c8_classification_total (items : List String) (backStr : String)
    (hasFallback : Bool) (reply : String) :
    (classifySelection items backStr hasFallback reply = SelClass.invalid ↔ reply ∉ items) ∧
      (classifySelection items backStr hasFallback reply = SelClass.backNav ↔
        reply ∈ items ∧ reply = backStr ∧ hasFallback = true) ∧
      (classifySelection items backStr hasFallback reply = SelClass.knownItem ↔
        reply ∈ items ∧ ¬(reply = backStr ∧ hasFallback = true)) := by
  unfold classifySelection
  by_cases hmem : reply ∈ items
  · by_cases hback : reply = backStr ∧ hasFallback = true
    · obtain ⟨hb, hf⟩ := hback
      subst hb
      subst hf
      simp [hmem]
    · simp [hmem, hback]
  · simp [hmem]

/-- C4 counterexample: the followed-channels fetch is NOT issued at most
once per run when the fetched collection is empty.  The cache test is a
Python falsiness test, so an empty fetched list is indistinguishable
from an unset cache: two consecutive accesses starting from the unset
cache issue two fetches, not one. -/
theorem c4_counterexample :
    user_follows_count ([] : List Follow) 2 none = 2 ∧
      ¬ user_follows_count ([] : List Follow) 2 none = 1 := by
  constructor
  · decide
  · decide

theorem user_follows_count_cached (fetched : List Follow) (l : List Follow) (hl : l ≠ []) :
    ∀ n : Nat, user_follows_count fetched n (some l) = 0 := by
  intro n
  induction n with
  | zero => rfl
  | succ n ih =>
    have hfal : pyFalsy (some l) = false := by
      simp [pyFalsy, List.isEmpty_iff, hl]
    simp only [user_follows_count, user_follows_access, hfal, Bool.false_eq_true, if_false,
      cond_false]
    simpa [user_follows_access, hfal] using ih

/-- C4 amended: the followed-channels list is fetched at most once per
run provided the fetched collection is non-empty: the first access to
the unset cache triggers exactly one fetch and every later access
returns the cached value without fetching again.  When the fetch
returns an empty collection, the falsy cache test refetches on every
access (see the counterexample). -/
theorem c4_single_fetch (fetched : List Follow) (hne : fetched ≠ []) (n : Nat) :
    user_follows_count fetched (n + 1) none = 1 := by
  have hfal : pyFalsy (none : Option (List Follow)) = true := rfl
  simp only [user_follows_count, user_follows_access, hfal, if_pos, if_true, cond_true]
  rw [user_follows_count_cached fetched fetched hne n]

theorem c4_single_fetch_witness :
    ([⟨"a", "b"⟩] : List Follow) ≠ [] ∧
      user_follows_count [⟨"a", "b"⟩] 3 none = 1 :=
  ⟨by decide, c4_single_fetch [⟨"a", "b"⟩] (by decide) 2⟩

/-! ## Label round-trip lemmas (claim C9) -/

theorem splitChar_structure : ∀ l : List Char, ∃ t ts, splitChar l = t :: ts := by
  intro l
  cases l with
  | nil => exact ⟨[], [], rfl⟩
  | cons c cs =>
    obtain ⟨t, ts, h⟩ := splitChar_structure cs
    by_cases hc : c = ' '
    · exact ⟨[], t :: ts, by simp [splitChar, h, hc]⟩
    · exact ⟨c :: t, ts, by simp [splitChar, h, hc]⟩

theorem splitChar_space (l : List Char) : splitChar (' ' :: l) = [] :: splitChar l := by
  obtain ⟨t, ts, h⟩ := splitChar_structure l
  simp [splitChar, h]

theorem splitChar_nospace_append (xs : List Char) (hxs : ∀ c ∈ xs, c ≠ ' ') :
    ∀ (l t : List Char) (ts : List (List Char)), splitChar l = t :: ts →
      splitChar (xs ++ l) = (xs ++ t) :: ts := by
  induction xs with
  | nil => intro l t ts h; simpa using h
  | cons x xs ih =>
    intro l t ts h
    have hx : x ≠ ' ' := hxs x (List.mem_cons_self x xs)
    have hxs2 : ∀ c ∈ xs, c ≠ ' ' := fun c hc => hxs c (List.mem_cons_of_mem x hc)
    have h2 := ih hxs2 l t ts h
    simp [splitChar, h2, hx]

/-- Token extraction from a live-annotated follow label: the second
space-separated token of an annotated label is exactly the user_name,
when neither the live icon nor the name contains a space. -/
theorem token1_annotate (env : Env) (c : Stream)
    (hlive : ' ' ∉ env.live_icon.toList) (hname : ' ' ∉ c.user_name.toList) :
    (splitOnSpace (annotate env c)).get? 1 = some c.user_name := by
  have hR : (annotate env c).toList =
      env.live_icon.toList ++ ' ' :: (c.user_name.toList ++ ' ' ::
        (env.delimiter ++ " " ++ take40 c.title ++ " (" ++ env.eye
          ++ toString c.viewer_count ++ " viewers " ++ env.delimiter ++ " "
          ++ env.liveTime c.started_at ++ ")").toList) := by
    simp [annotate, toList_append, List.append_assoc]
  obtain ⟨t, ts, hsplit⟩ := splitChar_structure
    (env.delimiter ++ " " ++ take40 c.title ++ " (" ++ env.eye
      ++ toString c.viewer_count ++ " viewers " ++ env.delimiter ++ " "
      ++ env.liveTime c.started_at ++ ")").toList
  have hz : splitChar (c.user_name.toList ++ ' ' ::
      (env.delimiter ++ " " ++ take40 c.title ++ " (" ++ env.eye
        ++ toString c.viewer_count ++ " viewers " ++ env.delimiter ++ " "
        ++ env.liveTime c.started_at ++ ")").toList) =
      (c.user_name.toList ++ []) :: t :: ts := by
    apply splitChar_nospace_append c.user_name.toList (fun d hd h2 => hname (h2 ▸ hd))
    rw [splitChar_space, hsplit]
  have hfull := splitChar_nospace_append env.live_icon.toList
    (fun d hd h2 => hlive (h2 ▸ hd)) _ _ _ (by rw [splitChar_space, hz])
  unfold splitOnSpace
  rw [hR, hfull]
  simp [mk_toList]

theorem breakAtSub_of_not_contains (d : List Char) :
    ∀ l : List Char, containsSub d l = false → breakAtSub d l = l := by
  intro l
  induction l with
  | nil => intro _; rfl
  | cons c cs ih =>
    intro h
    simp only [containsSub, Bool.or_eq_false_iff] at h
    simp [breakAtSub, h.1, ih h.2]

theorem dropWhile_all_false {p : Char → Bool} :
    ∀ l : List Char, (∀ c ∈ l, p c = false) → l.dropWhile p = l := by
  intro l
  induction l with
  | nil => intro _; rfl
  | cons c cs _ =>
    intro h
    simp [List.dropWhile, h c (List.mem_cons_self c cs)]

/-- A whitespace-free string passes pyStrip unchanged. -/
theorem pyStrip_id (s : String) (h : ∀ c ∈ s.toList, c.isWhitespace = false) :
    pyStrip s = s := by
  unfold pyStrip
  rw [dropWhile_all_false s.toList h]
  rw [dropWhile_all_false s.toList.reverse (fun c hc => h c (List.mem_reverse.mp hc))]
  rw [List.reverse_reverse]
  exact mk_toList s

/-- The online-follows extraction pipeline returns a bare user name
unchanged when the name does not start with the live icon, does not
contain the delimiter, and has no whitespace. -/
theorem onlineExtract_id (env : Env) (name : String)
    (h1 : env.live_icon.toList.isPrefixOf name.toList = false)
    (h2 : containsSub env.delimiter.toList name.toList = false)
    (h3 : ∀ c ∈ name.toList, c.isWhitespace = false) :
    onlineExtract env name = name := by
  have hc : clean_string name env.live_icon = name := by
    unfold clean_string
    rw [h1]
    simp
  have hs : pySplitHead name env.delimiter = name := by
    unfold pySplitHead
    by_cases hd : env.delimiter.toList.isEmpty
    · rw [if_pos hd]
    · rw [if_neg hd, breakAtSub_of_not_contains _ _ h2, mk_toList]
  unfold onlineExtract
  rw [hc, hs]
  exact pyStrip_id name h3

theorem dictInsert_fresh {α : Type} (k : String) (v : α) :
    ∀ d : List (String × α), k ∉ dictKeys d → dictInsert k v d = d ++ [(k, v)] := by
  intro d
  induction d with
  | nil => intro _; rfl
  | cons p ps ih =>
    intro h
    simp only [dictKeys, List.map_cons, List.mem_cons] at h
    push_neg at h
    have hne : ¬ p.1 = k := fun hh => h.1 hh.symm
    simp only [dictInsert, if_neg hne]
    rw [ih (by simpa [dictKeys] using h.2)]
    simp

theorem pyDict_foldl_nodup {α : Type} :
    ∀ (pairs acc : List (String × α)), (∀ p ∈ pairs, p.1 ∉ dictKeys acc) →
      (pairs.map Prod.fst).Nodup →
      pairs.foldl (fun d p => dictInsert p.1 p.2 d) acc = acc ++ pairs := by
  intro pairs
  induction pairs with
  | nil => intro acc _ _; simp
  | cons p ps ih =>
    intro acc hdis hnd
    simp only [List.map_cons, List.nodup_cons] at hnd
    have hfresh : p.1 ∉ dictKeys acc := hdis p (List.mem_cons_self p ps)
    simp only [List.foldl_cons, dictInsert_fresh p.1 p.2 acc hfresh]
    rw [ih (acc ++ [p])]
    · simp
    · intro q hq
      simp only [dictKeys, List.map_append, List.mem_append]
      push_neg
      constructor
      · exact hdis q (List.mem_cons_of_mem p hq)
      · simp only [List.map_cons, List.map_nil, List.mem_singleton]
        intro h2
        exact hnd.1 (h2 ▸ List.mem_map_of_mem Prod.fst hq)
    · exact hnd.2

/-- With duplicate-free keys a Python dict is the pair list itself. -/
theorem pyDict_nodup {α : Type} (pairs : List (String × α))
    (hnd : (pairs.map Prod.fst).Nodup) : pyDict pairs = pairs := by
  unfold pyDict
  simpa using pyDict_foldl_nodup pairs [] (by simp [dictKeys]) hnd

theorem dictLookup_self {α : Type} :
    ∀ pairs : List (String × α), (pairs.map Prod.fst).Nodup →
      ∀ p ∈ pairs, dictLookup p.1 pairs = some p.2 := by
  intro pairs
  induction pairs with
  | nil => intro _ p hp; cases hp
  | cons q qs ih =>
    intro hnd p hp
    simp only [List.map_cons, List.nodup_cons] at hnd
    cases hp with
    | head => simp [dictLookup]
    | tail _ hp2 =>
      have hne : q.1 ≠ p.1 := by
        intro h2
        exact hnd.1 (h2 ▸ List.mem_map_of_mem Prod.fst hp2)
      simp only [dictLookup, if_neg hne]
      exact ih hnd.2 p hp2

/-- Looking a formatted label up in the Python dict built over the
enumerated records finds exactly the corresponding record, as long as
the labels are pairwise distinct. -/
theorem dictLookup_pyDict_label {α : Type} (label : Nat → α → String) (xs : List α)
    (hnd : (xs.enum.map fun p => label p.1 p.2).Nodup) :
    ∀ p ∈ xs.enum,
      dictLookup (label p.1 p.2) (pyDict (xs.enum.map fun q => (label q.1 q.2, q.2)))
        = some p.2 := by
  intro p hp
  have hkeys : ((xs.enum.map fun q => (label q.1 q.2, q.2)).map Prod.fst).Nodup := by
    simpa [List.map_map, Function.comp] using hnd
  rw [pyDict_nodup _ hkeys]
  have hmem : ((label p.1 p.2, p.2) : String × α) ∈ xs.enum.map fun q => (label q.1 q.2, q.2) :=
    List.mem_map_of_mem (fun q => (label q.1 q.2, q.2)) hp
  exact dictLookup_self _ hkeys (label p.1 p.2, p.2) hmem

/-- C9: for every supported record kind, extracting the identifying key
from a formatted label recovers the record.  For a live-annotated follow
label built by the merger, taking the second space-separated token (the
show_follows extraction) yields exactly the original user_name despite
the icon, truncated title, and viewer-count decoration, provided neither
the icon nor the name contains a space; the online-follows extraction
(strip the icon, split at the delimiter, take the head, strip) returns a
bare user name unchanged; and for clips and videos, looking the
formatted label up in the label dict recovers exactly the formatted
record whenever the labels are pairwise distinct (the ordinal index
disambiguates them). -/
theorem c9_label_roundtrip (env : Env) :
    (∀ c : Stream, ' ' ∉ env.live_icon.toList → ' ' ∉ c.user_name.toList →
      (splitOnSpace (annotate env c)).get? 1 = some c.user_name) ∧
      (∀ name : String, env.live_icon.toList.isPrefixOf name.toList = false →
        containsSub env.delimiter.toList name.toList = false →
        (∀ ch ∈ name.toList, ch.isWhitespace = false) →
        onlineExtract env name = name) ∧
      (∀ clips : List Clip, (clips.enum.map fun p => clipLabel env p.1 p.2).Nodup →
        ∀ p ∈ clips.enum, dictLookup (clipLabel env p.1 p.2) (clipsDict env clips) = some p.2) ∧
      (∀ vids : List Video, (vids.enum.map fun p => videoLabel env p.1 p.2).Nodup →
        ∀ p ∈ vids.enum, dictLookup (videoLabel env p.1 p.2) (videosDict env vids) = some p.2) := by
  refine ⟨?_, ?_, ?_, ?_⟩
  · intro c h1 h2
    exact token1_annotate env c h1 h2
  · intro name h1 h2 h3
    exact onlineExtract_id env name h1 h2 h3
  · intro clips hnd p hp
    exact dictLookup_pyDict_label (clipLabel env) clips hnd p hp
  · intro vids hnd p hp
    exact dictLookup_pyDict_label (videoLabel env) vids hnd p hp

/-- A concrete clip and video for the C9 witness. -/
def clipW : Clip := ⟨"Nice play", "mods", 5, "2023", "u1", "bob"⟩

def videoW : Video := ⟨"VOD one", "1h2m", 7, "u2"⟩

theorem c9_label_roundtrip_witness :
    ((' ' ∉ envC1.live_icon.toList) ∧ (' ' ∉ ("bob" : String).toList) ∧
        (splitOnSpace (annotate envC1 ⟨"bob", "Speedrun", 120, "t"⟩)).get? 1 = some "bob") ∧
      (onlineExtract envC1 "bob" = "bob") ∧
      (dictLookup (clipLabel envC1 0 clipW) (clipsDict envC1 [clipW]) = some clipW) ∧
      (dictLookup (videoLabel envC1 0 videoW) (videosDict envC1 [videoW]) = some videoW) := by
  have h := c9_label_roundtrip envC1
  refine ⟨⟨by decide, by decide, h.1 ⟨"bob", "Speedrun", 120, "t"⟩ (by decide) (by decide)⟩,
    h.2.1 "bob" (by decide) (by decide) (by decide), ?_, ?_⟩
  · exact h.2.2.1 [clipW] (by decide) (0, clipW) (by decide)
  · exact h.2.2.2 [videoW] (by decide) (0, videoW) (by decide)

/-! ## Reasoning kit for the interpreter monad -/

/-- A computation that never returns normally (it always aborts: exits,
raises, or runs out of fuel). -/
def NoRet {α : Type} (m : M α) : Prop := ∀ (s : St) (a : α), (m s).1 ≠ Except.ok a

/-- Every event of every trace of m satisfies p. -/
def TraceAll (p : Event → Prop) {α : Type} (m : M α) : Prop :=
  ∀ s : St, ∀ e ∈ (m s).2.2, p e

theorem noRet_fuel {α : Type} : NoRet (fuelErr : M α) := by
  intro s a h
  simp [fuelErr] at h

theorem noRet_exit {α : Type} : NoRet (exitOneM : M α) := by
  intro s a h
  simp [exitOneM] at h

theorem noRet_raise {α : Type} : NoRet (raiseM : M α) := by
  intro s a h
  simp [raiseM] at h

theorem noRet_bind_left {α β : Type} {m : M α} {f : α → M β} (h : NoRet m) :
    NoRet (m >>= f) := by
  intro s b hb
  have hb2 : (mBind m f s).1 = Except.ok b := hb
  clear hb
  unfold mBind at hb2
  cases hm : (m s).1 with
  | ok a => exact h s a hm
  | error e => simp [hm] at hb2

theorem noRet_bind_right {α β : Type} {m : M α} {f : α → M β} (h : ∀ a, NoRet (f a)) :
    NoRet (m >>= f) := by
  intro s b hb
  have hb2 : (mBind m f s).1 = Except.ok b := hb
  clear hb
  unfold mBind at hb2
  cases hm : (m s).1 with
  | ok a =>
    simp only [hm] at hb2
    exact h a (m s).2.1 b hb2
  | error e => simp [hm] at hb2

theorem traceAll_pure {p : Event → Prop} {α : Type} (a : α) : TraceAll p (pure a : M α) := by
  intro s e he
  simp [pure, mPure] at he

theorem traceAll_fuel {p : Event → Prop} {α : Type} : TraceAll p (fuelErr : M α) := by
  intro s e he
  simp [fuelErr] at he

theorem traceAll_exit {p : Event → Prop} {α : Type} : TraceAll p (exitOneM : M α) := by
  intro s e he
  simp [exitOneM] at he

theorem traceAll_raise {p : Event → Prop} {α : Type} : TraceAll p (raiseM : M α) := by
  intro s e he
  simp [raiseM] at he

theorem traceAll_emit {p : Event → Prop} {e : Event} (h : p e) : TraceAll p (emit e) := by
  intro s x hx
  simp [emit] at hx
  exact hx ▸ h

theorem traceAll_getReply {p : Event → Prop} (env : Env) : TraceAll p (getReply env) := by
  intro s e he
  simp [getReply] at he

theorem traceAll_userFollows {p : Event → Prop} (env : Env) (h : p Event.followFetch) :
    TraceAll p (userFollowsM env) := by
  intro s e he
  unfold userFollowsM at he
  by_cases hc : pyFalsy s.cache
  · simp [hc] at he
    exact he ▸ h
  · simp [hc] at he

theorem traceAll_bind {p : Event → Prop} {α β : Type} {m : M α} {f : α → M β}
    (hma : TraceAll p m) (hf : ∀ a, TraceAll p (f a)) : TraceAll p (m >>= f) := by
  intro s e he
  have he2 : e ∈ (mBind m f s).2.2 := he
  clear he
  unfold mBind at he2
  cases hms : (m s).1 with
  | ok a =>
    simp only [hms] at he2
    rcases List.mem_append.mp he2 with h1 | h2
    · exact hma s e h1
    · exact hf a (m s).2.1 e h2
  | error er =>
    simp only [hms] at he2
    exact hma s e he2

/-- When the first computation never returns, the trace of the bind is
the trace of the first computation alone. -/
theorem traceAll_bind_noRet {p : Event → Prop} {α β : Type} {m : M α} {f : α → M β}
    (hnr : NoRet m) (hma : TraceAll p m) : TraceAll p (m >>= f) := by
  intro s e he
  have he2 : e ∈ (mBind m f s).2.2 := he
  clear he
  unfold mBind at he2
  cases hms : (m s).1 with
  | ok a => exact absurd hms (hnr s a)
  | error er =>
    simp only [hms] at he2
    exact hma s e he2

theorem traceAll_ite {p : Event → Prop} {α : Type} {c : Prop} [Decidable c] {m1 m2 : M α}
    (h1 : TraceAll p m1) (h2 : TraceAll p m2) : TraceAll p (if c then m1 else m2) := by
  by_cases hc : c
  · simpa [hc] using h1
  · simpa [hc] using h2

theorem traceAll_noResults {p : Event → Prop} (env : Env) (msg : String)
    (h1 : p (Event.logWarn msg)) (h2 : p (Event.prompt Tag.noResults [msg])) :
    TraceAll p (noResultsM env msg) := by
  unfold noResultsM
  refine traceAll_bind (traceAll_emit h1) fun _ => ?_
  refine traceAll_bind (traceAll_emit h2) fun _ => ?_
  exact traceAll_bind (traceAll_getReply env) fun _ => traceAll_pure _

theorem traceAll_playStream {p : Event → Prop} (env : Env) (t : String)
    (h1 : p (Event.notify ("Opening stream <b>" ++ t ++ "</b>")))
    (h2 : p (Event.playStream t)) : TraceAll p (playStreamM env t) := by
  unfold playStreamM
  exact traceAll_bind (traceAll_emit h1) fun _ => traceAll_emit h2

/-- App.show_info never returns normally: every branch of its body ends
in the unconditional recursive redraw of the same screen, so the only
exits are sys.exit, a raised exception, or running forever (out of
fuel in the model). -/
theorem noRet_run_show_info (env : Env) :
    ∀ (n : Nat) (uid : String), NoRet (run env n (Call.show_info uid)) := by
  intro n
  induction n with
  | zero => intro uid; exact noRet_fuel
  | succ n ih =>
    intro uid
    show NoRet (infoBody env (run env n) uid)
    unfold infoBody
    apply noRet_bind_right; intro _
    apply noRet_bind_right; intro r
    apply noRet_bind_right; intro _
    apply noRet_bind_right; intro _
    apply noRet_bind_right; intro _
    apply noRet_bind_right; intro _
    exact noRet_bind_left (ih uid)

/-! ## No selection prompt over an empty clip list is ever shown -/

/-- An event is good when it is not a selection prompt at the Clips
screen with an empty option list. -/
def goodEv (e : Event) : Prop := e ≠ Event.prompt Tag.clips []

/-- The fallbacks App ever binds: none, show_menu,
show_follows_and_online, or show_info (via functools.partial). -/
def FbOK : Option Call → Prop
  | none => True
  | some Call.show_menu => True
  | some Call.show_follows_and_online => True
  | some (Call.show_info _) => True
  | some _ => False

/-- Well-formed navigation calls: screen calls are unrestricted, and a
show_items call carries one of the fallbacks App actually binds and, at
the Clips screen, a non-empty option list. -/
def WFCall : Call → Prop
  | Call.items tag opts fb => FbOK fb ∧ (tag = Tag.clips → opts ≠ [])
  | _ => True

theorem WFCall_of_FbOK : ∀ f : Call, FbOK (some f) → WFCall f := by
  intro f h
  cases f <;> first | exact True.intro | exact h.elim

theorem traceAll_good_emit (e : Event) (h : e ≠ Event.prompt Tag.clips []) :
    TraceAll goodEv (emit e) := traceAll_emit h

theorem traceAll_good_noResults (env : Env) (msg : String) :
    TraceAll goodEv (noResultsM env msg) :=
  traceAll_noResults env msg (by simp [goodEv]) (by simp [goodEv])

theorem traceAll_good_playStream (env : Env) (t : String) :
    TraceAll goodEv (playStreamM env t) :=
  traceAll_playStream env t (by simp [goodEv]) (by simp [goodEv])

theorem traceAll_good_userFollows (env : Env) : TraceAll goodEv (userFollowsM env) :=
  traceAll_userFollows env (fun h => by simp [goodEv] at h)

theorem traceAll_good_raise {α : Type} : TraceAll goodEv (raiseM : M α) := traceAll_raise

theorem traceAll_good_exit {α : Type} : TraceAll goodEv (exitOneM : M α) := traceAll_exit

theorem traceAll_good_pure {α : Type} (a : α) : TraceAll goodEv (pure a : M α) :=
  traceAll_pure a

theorem traceAll_good_getReply (env : Env) : TraceAll goodEv (getReply env) :=
  traceAll_getReply env

theorem good_itemsBody (env : Env) (R : Call → M RVal)
    (hR : ∀ c, WFCall c → TraceAll goodEv (R c))
    (tag : Tag) (opts : List String) (fb : Option Call)
    (hfb : FbOK fb) (hopts : tag = Tag.clips → opts ≠ []) :
    TraceAll goodEv (itemsBody env R tag opts fb) := by
  have hprompt : goodEv (Event.prompt tag opts) := by
    intro heq
    injection heq with h1 h2
    exact hopts h1 h2
  unfold itemsBody itemsInvalid
  apply traceAll_bind (traceAll_emit hprompt)
  intro _
  apply traceAll_bind
  · exact traceAll_good_getReply env
  intro selected
  apply traceAll_ite
  · cases fb with
    | none => exact traceAll_good_pure _
    | some f =>
      dsimp only
      apply traceAll_ite _ (traceAll_good_pure _)
      apply traceAll_bind (traceAll_good_emit _ (by simp))
      intro _
      exact traceAll_bind (hR f (WFCall_of_FbOK f hfb)) fun _ => traceAll_good_pure _
  · apply traceAll_bind (traceAll_good_emit _ (by simp))
    intro _
    apply traceAll_bind
    · exact hR (Call.items Tag.missing [missingMsg selected] none)
        ⟨trivial, by simp⟩
    · intro _
      cases fb with
      | none => exact traceAll_good_exit
      | some f =>
        dsimp only
        apply traceAll_bind (traceAll_good_emit _ (by simp))
        intro _
        exact traceAll_bind (hR f (WFCall_of_FbOK f hfb)) fun _ => traceAll_good_exit

/-- No run of the navigation controller ever presents a selection prompt
over an empty clip list: in the empty-clips branch the prompt line of
show_clips sits behind a call to show_info, which never returns. -/
theorem good_run (env : Env) :
    ∀ (n : Nat) (c : Call), WFCall c → TraceAll goodEv (run env n c) := by
  intro n
  induction n with
  | zero => intro c _; exact traceAll_fuel
  | succ n ih =>
    intro c hc
    show TraceAll goodEv (stepBody env (run env n) c)
    cases c with
    | show_menu =>
      unfold stepBody menuBody
      apply traceAll_bind
      · exact ih (Call.items Tag.root _ none) ⟨trivial, by simp⟩
      · intro r
        apply traceAll_ite
        · exact traceAll_bind (ih Call.show_follows_and_online trivial) fun _ => traceAll_good_pure _
        · apply traceAll_ite _ traceAll_good_raise
          exact traceAll_bind (ih Call.show_online_follows trivial) fun _ => traceAll_good_pure _
    | show_follows_and_online =>
      unfold stepBody fandoBody
      apply traceAll_bind (ih Call.show_follows trivial)
      intro r
      cases r with
      | unit => exact traceAll_good_raise
      | str s => exact traceAll_good_raise
      | fol f =>
        exact traceAll_bind (ih (Call.show_info f.to_id) trivial) fun _ => traceAll_good_pure _
    | show_follows =>
      unfold stepBody followsBody
      apply traceAll_bind (traceAll_good_userFollows env)
      intro ufs
      apply traceAll_bind (traceAll_good_emit _ (by simp))
      intro _
      apply traceAll_bind
      · exact ih (Call.items Tag.follows _ (some Call.show_menu)) ⟨trivial, by simp⟩
      · intro r
        cases followsResolve env (asStr r) with
        | none => exact traceAll_good_raise
        | some key =>
          dsimp only
          cases dictLookup key (pyDict (ufs.map fun u => (u.to_name, u))) with
          | none => exact traceAll_good_raise
          | some f => exact traceAll_good_pure _
    | show_online_follows =>
      unfold stepBody onlineBody
      apply traceAll_ite
      · exact traceAll_bind (traceAll_good_noResults env _)
          fun _ => traceAll_good_pure _
      · apply traceAll_bind
        · exact ih (Call.items Tag.online _ (some Call.show_menu)) ⟨trivial, by simp⟩
        · intro r
          exact traceAll_bind (traceAll_good_playStream env _)
            fun _ => traceAll_good_pure _
    | show_info uid =>
      unfold stepBody infoBody
      apply traceAll_bind (traceAll_good_emit _ (by simp))
      intro _
      apply traceAll_bind
      · exact ih (Call.items Tag.info _ (some Call.show_follows_and_online)) ⟨trivial, by simp⟩
      · intro r
        apply traceAll_bind
        · apply traceAll_ite _ (traceAll_good_pure _)
          exact traceAll_bind (ih (Call.show_clips (env.info uid) none) trivial)
            fun _ => traceAll_good_pure _
        · intro _
          apply traceAll_bind
          · apply traceAll_ite _ (traceAll_good_pure _)
            exact traceAll_bind (ih (Call.show_videos (env.info uid)) trivial)
              fun _ => traceAll_good_pure _
          · intro _
            apply traceAll_bind (traceAll_ite traceAll_good_raise (traceAll_good_pure _))
            intro _
            apply traceAll_bind
            · exact traceAll_ite
                (traceAll_good_playStream env _)
                (traceAll_good_pure _)
            · intro _
              exact traceAll_bind (ih (Call.show_info uid) trivial) fun _ => traceAll_good_pure _
    | show_videos ch =>
      unfold stepBody videosBody
      apply traceAll_bind (traceAll_good_emit _ (by simp))
      intro _
      apply traceAll_bind (traceAll_good_emit _ (by simp))
      intro _
      apply traceAll_ite
      · apply traceAll_bind (traceAll_good_noResults env _)
        intro _
        exact traceAll_bind (ih (Call.show_info ch.broadcaster_id) trivial)
          fun _ => traceAll_good_pure _
      · apply traceAll_bind
        · exact ih (Call.items Tag.videos _ (some (Call.show_info ch.broadcaster_id)))
            ⟨trivial, by simp⟩
        · intro r
          cases dictLookup (asStr r) (videosDict env (env.videos ch.broadcaster_id)) with
          | none => exact traceAll_good_raise
          | some v =>
            apply traceAll_bind
              (traceAll_good_playStream env _)
            intro _
            exact traceAll_bind (ih (Call.show_videos ch) trivial) fun _ => traceAll_good_pure _
    | show_clips ch cached =>
      unfold stepBody clipsBody
      apply traceAll_bind (traceAll_good_emit _ (by simp))
      intro _
      apply traceAll_bind
      · cases cached with
        | none =>
          exact traceAll_bind (traceAll_good_emit _ (by simp)) fun _ => traceAll_good_pure _
        | some l =>
          apply traceAll_ite
          · exact traceAll_bind (traceAll_good_emit _ (by simp)) fun _ => traceAll_good_pure _
          · exact traceAll_good_pure _
      · intro clips
        unfold clipsAfterFetch
        dsimp only
        by_cases hd : (dictKeys (clipsDict env clips)).isEmpty = true
        · apply traceAll_bind_noRet
          · rw [if_pos hd]
            apply noRet_bind_right
            intro _
            exact noRet_bind_left (noRet_run_show_info env n ch.broadcaster_id)
          · rw [if_pos hd]
            apply traceAll_bind
              (traceAll_good_noResults env _)
            intro _
            exact traceAll_bind (ih (Call.show_info ch.broadcaster_id) trivial)
              fun _ => traceAll_good_pure _
        · rw [if_neg hd]
          apply traceAll_bind (traceAll_good_pure _)
          intro _
          apply traceAll_bind
          · refine ih (Call.items Tag.clips (dictKeys (clipsDict env clips))
              (some (Call.show_info ch.broadcaster_id))) ⟨trivial, fun _ => ?_⟩
            simpa [List.isEmpty_iff] using hd
          · intro r
            cases dictLookup (asStr r) (clipsDict env clips) with
            | none => exact traceAll_good_raise
            | some cl =>
              apply traceAll_bind (traceAll_good_emit _ (by simp))
              intro _
              apply traceAll_bind (traceAll_good_emit _ (by simp))
              intro _
              exact traceAll_bind
                (ih (Call.show_clips ch (some (dictVals (clipsDict env clips)))) trivial)
                fun _ => traceAll_good_pure _
    | items tag opts fb =>
      unfold stepBody
      apply traceAll_bind
      · exact good_itemsBody env (run env n) ih tag opts fb hc.1 hc.2
      · intro _
        exact traceAll_good_pure _

/-! ## The no-results path of the Clips screen (claim C5) -/

theorem noRet_error {α : Type} {m : M α} (h : NoRet m) (s : St) :
    ∃ e, (m s).1 = Except.error e := by
  cases hm : (m s).1 with
  | ok a => exact absurd hm (h s a)
  | error e => exact ⟨e, rfl⟩

theorem bindM_eq {α β : Type} (m : M α) (f : α → M β) : m >>= f = mBind m f := rfl

theorem fst_bind_ok {α β : Type} {m : M α} {f : α → M β} {s : St} {a : α}
    (h : (m s).1 = Except.ok a) : ((m >>= f) s).1 = (f a (m s).2.1).1 := by
  show (mBind m f s).1 = _
  unfold mBind
  rw [h]

theorem fst_bind_err {α β : Type} {m : M α} {f : α → M β} {s : St} {e : Abort}
    (h : (m s).1 = Except.error e) : ((m >>= f) s).1 = Except.error e := by
  show (mBind m f s).1 = _
  unfold mBind
  rw [h]

theorem trace_bind_ok {α β : Type} {m : M α} {f : α → M β} {s : St} {a : α}
    (h : (m s).1 = Except.ok a) :
    ((m >>= f) s).2.2 = (m s).2.2 ++ (f a (m s).2.1).2.2 := by
  show (mBind m f s).2.2 = _
  unfold mBind
  rw [h]

theorem trace_bind_err {α β : Type} {m : M α} {f : α → M β} {s : St} {e : Abort}
    (h : (m s).1 = Except.error e) : ((m >>= f) s).2.2 = (m s).2.2 := by
  show (mBind m f s).2.2 = _
  unfold mBind
  rw [h]

/-- The first event of every show_info run with fuel is entering the
info screen. -/
theorem trace_info_head (env : Env) (n : Nat) (uid : String) (s : St) :
    ∃ t, traceOf (run env (n + 1) (Call.show_info uid)) s = Event.enterInfo uid :: t :=
  ⟨_, rfl⟩

/-- With an empty clip fetch, the Clips screen emits exactly: screen
entry, the one fetch, the no-results warning, the no-results message
screen, and then enters the Info screen of the same channel. -/
theorem c5_trace_start (env : Env) (ch : Broadcaster) (s : St) (n : Nat)
    (h : env.clips ch.broadcaster_id = []) :
    traceOf (run env (n + 2) (Call.show_clips ch none)) s =
      Event.enterClips ch.broadcaster_id :: Event.clipFetch ch.broadcaster_id ::
        Event.logWarn ("No available clips from followed channel: " ++ ch.broadcaster_name) ::
        Event.prompt Tag.noResults
          ["No available clips from followed channel: " ++ ch.broadcaster_name] ::
        traceOf (run env (n + 1) (Call.show_info ch.broadcaster_id))
          { s with tick := s.tick + 1 } := by
  obtain ⟨e, he⟩ := noRet_error (noRet_run_show_info env (n + 1) ch.broadcaster_id)
    { s with tick := s.tick + 1 }
  have h1 : traceOf (run env (n + 2) (Call.show_clips ch none)) s =
      Event.enterClips ch.broadcaster_id :: Event.clipFetch ch.broadcaster_id ::
        traceOf (clipsAfterFetch env (run env (n + 1)) ch (env.clips ch.broadcaster_id)) s :=
    rfl
  rw [h1, h]
  have hth1 : ((noResultsM env
      ("No available clips from followed channel: " ++ ch.broadcaster_name) >>=
        fun _ => (run env (n + 1) (Call.show_info ch.broadcaster_id) >>=
          fun _ => (pure PUnit.unit : M PUnit))) s).1 = Except.error e := by
    rw [fst_bind_ok (show (noResultsM env
        ("No available clips from followed channel: " ++ ch.broadcaster_name) s).1 =
      Except.ok PUnit.unit from rfl)]
    exact fst_bind_err he
  have hth2 : traceOf (noResultsM env
      ("No available clips from followed channel: " ++ ch.broadcaster_name) >>=
        fun _ => (run env (n + 1) (Call.show_info ch.broadcaster_id) >>=
          fun _ => (pure PUnit.unit : M PUnit))) s =
      Event.logWarn ("No available clips from followed channel: " ++ ch.broadcaster_name) ::
        Event.prompt Tag.noResults
          ["No available clips from followed channel: " ++ ch.broadcaster_name] ::
        traceOf (run env (n + 1) (Call.show_info ch.broadcaster_id))
          { s with tick := s.tick + 1 } := by
    unfold traceOf
    rw [trace_bind_ok (show (noResultsM env
        ("No available clips from followed channel: " ++ ch.broadcaster_name) s).1 =
      Except.ok PUnit.unit from rfl)]
    rw [show (noResultsM env
        ("No available clips from followed channel: " ++ ch.broadcaster_name) s).2.1 =
      { s with tick := s.tick + 1 } from rfl]
    rw [trace_bind_err he]
    rfl
  have htail : traceOf (clipsAfterFetch env (run env (n + 1)) ch ([] : List Clip)) s =
      Event.logWarn ("No available clips from followed channel: " ++ ch.broadcaster_name) ::
        Event.prompt Tag.noResults
          ["No available clips from followed channel: " ++ ch.broadcaster_name] ::
        traceOf (run env (n + 1) (Call.show_info ch.broadcaster_id))
          { s with tick := s.tick + 1 } := by
    show traceOf ((noResultsM env
        ("No available clips from followed channel: " ++ ch.broadcaster_name) >>=
          fun _ => (run env (n + 1) (Call.show_info ch.broadcaster_id) >>=
            fun _ => (pure PUnit.unit : M PUnit))) >>=
        fun _ => (run env (n + 1)
            (Call.items Tag.clips (dictKeys (clipsDict env ([] : List Clip)))
              (some (Call.show_info ch.broadcaster_id))) >>=
          fun r =>
            match dictLookup (asStr r) (clipsDict env ([] : List Clip)) with
            | none => raiseM
            | some c => do
              emit (Event.notify
                ("Opening clip <b>" ++ c.broadcaster_name ++ "@" ++ c.title ++ "</b>"))
              emit (Event.launchClip c.url)
              let _ ← run env (n + 1)
                (Call.show_clips ch (some (dictVals (clipsDict env ([] : List Clip)))))
              pure RVal.unit)) s = _
    unfold traceOf
    rw [trace_bind_err hth1]
    exact hth2
  rw [htail]

/-- The conclusion of claim C5: with an empty clip fetch for the
channel, the Clips screen run shows the no-results message screen and
then transitions directly to the Info screen of the same channel, and at
no point of the run (any fuel) is a selection prompt presented over the
empty clip option list. -/
def ClipsNoResultsSpec (env : Env) (ch : Broadcaster) (s : St) (n : Nat) : Prop :=
  (∃ t, traceOf (run env (n + 2) (Call.show_clips ch none)) s =
    Event.enterClips ch.broadcaster_id :: Event.clipFetch ch.broadcaster_id ::
      Event.logWarn ("No available clips from followed channel: " ++ ch.broadcaster_name) ::
      Event.prompt Tag.noResults
        ["No available clips from followed channel: " ++ ch.broadcaster_name] ::
      Event.enterInfo ch.broadcaster_id :: t) ∧
    ∀ m : Nat, ∀ e ∈ traceOf (run env m (Call.show_clips ch none)) s,
      e ≠ Event.prompt Tag.clips []

/-- C5: for every channel whose clip fetch returns an empty list, the
Clips screen logs and shows the no-results message and transitions
directly to the Info screen for that same channel, and no selection
prompt over the (empty) clip options is ever presented at the Clips
screen: the fall-through prompt line (the missing return in the source)
sits behind the call to show_info, which never returns. -/
theorem c5_no_results_fallback (env : Env) (ch : Broadcaster) (s : St) (n : Nat)
    (h : env.clips ch.broadcaster_id = []) : ClipsNoResultsSpec env ch s n := by
  constructor
  · rw [c5_trace_start env ch s n h]
    obtain ⟨t, ht⟩ := trace_info_head env n ch.broadcaster_id { s with tick := s.tick + 1 }
    rw [ht]
    exact ⟨t, rfl⟩
  · intro m e he
    exact good_run env m (Call.show_clips ch none) trivial s e he

theorem c5_no_results_fallback_witness :
    envC1.clips "id1" = [] ∧
      ClipsNoResultsSpec envC1 ⟨"id1", "bob", "T", "G"⟩ ⟨none, 0⟩ 3 :=
  ⟨rfl, c5_no_results_fallback envC1 ⟨"id1", "bob", "T", "G"⟩ ⟨none, 0⟩ 3 rfl⟩

/-! ## Clip re-fetch avoidance (claim C6) -/

def isEnterInfo : Event → Bool
  | Event.enterInfo _ => true
  | _ => false

def isClipFetch : Event → Bool
  | Event.clipFetch _ => true
  | _ => false

/-- The part of a trace before the first entry into the Info screen:
the part of the run that stays within the current Clips session. -/
def preInfo (tr : List Event) : List Event := tr.takeWhile fun e => !isEnterInfo e

/-- The number of clip fetches a trace performs before control first
returns to the Info screen. -/
def fetchesPreInfo (tr : List Event) : Nat := (preInfo tr).countP isClipFetch

/-- A trace with no clip fetch before the first Info entry. -/
def NFPtr (tr : List Event) : Prop := fetchesPreInfo tr = 0

/-- A computation whose every trace has no clip fetch before the first
Info entry. -/
def NFP {α : Type} (m : M α) : Prop := ∀ s : St, NFPtr (m s).2.2

theorem fetchesPreInfo_cons_info (u : String) (t : List Event) :
    fetchesPreInfo (Event.enterInfo u :: t) = 0 := by
  simp [fetchesPreInfo, preInfo, List.takeWhile, isEnterInfo]

theorem fetchesPreInfo_cons (e : Event) (t : List Event) (h : isEnterInfo e = false) :
    fetchesPreInfo (e :: t) =
      (if isClipFetch e then 1 else 0) + fetchesPreInfo t := by
  simp only [fetchesPreInfo, preInfo, List.takeWhile, h, Bool.not_false, List.countP_cons]
  by_cases hf : isClipFetch e
  · simp [hf, Nat.add_comm]
  · simp [hf]

theorem NFPtr_nil : NFPtr [] := rfl

theorem NFPtr_cons {e : Event} {t : List Event} (hf : isClipFetch e = false)
    (ht : NFPtr t) : NFPtr (e :: t) := by
  by_cases he : isEnterInfo e = true
  · cases e <;> simp [isEnterInfo] at he <;> simp [NFPtr, fetchesPreInfo, preInfo,
      List.takeWhile, isEnterInfo]
  · unfold NFPtr
    rw [fetchesPreInfo_cons e t (by simpa using he), hf]
    simpa [NFPtr] using ht

theorem NFPtr_append {t1 t2 : List Event} (h1 : NFPtr t1) (h2 : NFPtr t2) :
    NFPtr (t1 ++ t2) := by
  induction t1 with
  | nil => simpa using h2
  | cons e t1 ih =>
    by_cases he : isEnterInfo e = true
    · cases e <;> simp [isEnterInfo] at he <;> simp [NFPtr, fetchesPreInfo, preInfo,
        List.takeWhile, isEnterInfo]
    · have he2 : isEnterInfo e = false := by simpa using he
      unfold NFPtr at h1 ⊢
      rw [fetchesPreInfo_cons e t1 he2] at h1
      rw [List.cons_append, fetchesPreInfo_cons e (t1 ++ t2) he2]
      have hf : (if isClipFetch e then 1 else 0) = 0 := by omega
      have ht1 : fetchesPreInfo t1 = 0 := by omega
      rw [hf]
      simpa using ih ht1

theorem NFP_bind {α β : Type} {m : M α} {f : α → M β} (hm : NFP m)
    (hf : ∀ a, NFP (f a)) : NFP (m >>= f) := by
  intro s
  cases hr : (m s).1 with
  | ok a =>
    show NFPtr ((mBind m f) s).2.2
    unfold mBind
    rw [hr]
    exact NFPtr_append (hm s) (hf a (m s).2.1)
  | error e =>
    show NFPtr ((mBind m f) s).2.2
    unfold mBind
    rw [hr]
    exact hm s

theorem NFP_pure {α : Type} (a : α) : NFP (pure a : M α) := fun _ => NFPtr_nil

theorem NFP_fuel {α : Type} : NFP (fuelErr : M α) := fun _ => NFPtr_nil

theorem NFP_exit {α : Type} : NFP (exitOneM : M α) := fun _ => NFPtr_nil

theorem NFP_raise {α : Type} : NFP (raiseM : M α) := fun _ => NFPtr_nil

theorem NFP_getReply (env : Env) : NFP (getReply env) := fun _ => NFPtr_nil

theorem NFP_emit (e : Event) (h : isClipFetch e = false) : NFP (emit e) :=
  fun _ => NFPtr_cons h NFPtr_nil

theorem NFP_userFollows (env : Env) : NFP (userFollowsM env) := by
  intro s
  unfold userFollowsM
  by_cases hc : pyFalsy s.cache
  · simp only [hc, if_pos, if_true]
    exact NFPtr_cons (by simp [isClipFetch]) NFPtr_nil
  · simp only [hc, Bool.false_eq_true, if_false]
    exact NFPtr_nil

theorem NFP_noResults (env : Env) (msg : String) : NFP (noResultsM env msg) := by
  unfold noResultsM
  refine NFP_bind (NFP_emit _ (by simp [isClipFetch])) fun _ => ?_
  refine NFP_bind (NFP_emit _ (by simp [isClipFetch])) fun _ => ?_
  exact NFP_bind (NFP_getReply env) fun _ => NFP_pure _

theorem NFP_playStream (env : Env) (t : String) : NFP (playStreamM env t) := by
  unfold playStreamM
  exact NFP_bind (NFP_emit _ (by simp [isClipFetch])) fun _ => NFP_emit _ (by simp [isClipFetch])

theorem NFP_ite {α : Type} {c : Prop} [Decidable c] {m1 m2 : M α}
    (h1 : NFP m1) (h2 : NFP m2) : NFP (if c then m1 else m2) := by
  by_cases hc : c
  · simpa [hc] using h1
  · simpa [hc] using h2

/-- Any computation that starts by entering the Info screen performs no
clip fetch before the first Info entry, whatever follows. -/
theorem NFP_emitInfo_bind {β : Type} (u : String) (k : Unit → M β) :
    NFP (emit (Event.enterInfo u) >>= k) := by
  intro s
  show NFPtr ((mBind (emit (Event.enterInfo u)) k) s).2.2
  unfold mBind emit
  simp only [fetchesPreInfo_cons_info]
  exact fetchesPreInfo_cons_info u _

/-- Calls that stay fetch-free before the next Info entry: every screen
except a Clips entry that would fetch (an unset or falsy cached list). -/
def NFPCall : Call → Prop
  | Call.show_clips _ cached =>
    match cached with
    | some l => l ≠ []
    | none => False
  | Call.items _ _ fb => FbOK fb
  | _ => True

theorem NFPCall_of_FbOK : ∀ f : Call, FbOK (some f) → NFPCall f := by
  intro f h
  cases f <;> first | exact True.intro | exact h.elim

theorem foldl_dictInsert_ne_nil {α : Type} :
    ∀ (ps acc : List (String × α)), acc ≠ [] →
      ps.foldl (fun d p => dictInsert p.1 p.2 d) acc ≠ [] := by
  intro ps
  induction ps with
  | nil => intro acc ha; simpa using ha
  | cons p ps ih =>
    intro acc ha
    simp only [List.foldl_cons]
    apply ih
    cases acc with
    | nil => exact absurd rfl ha
    | cons q qs =>
      unfold dictInsert
      by_cases hq : q.1 = p.1 <;> simp [hq]

theorem pyDict_ne_nil {α : Type} (pairs : List (String × α)) (h : pairs ≠ []) :
    pyDict pairs ≠ [] := by
  cases pairs with
  | nil => exact absurd rfl h
  | cons p ps =>
    unfold pyDict
    simp only [List.foldl_cons]
    apply foldl_dictInsert_ne_nil
    simp [dictInsert]

theorem clipsDict_ne_nil (env : Env) (clips : List Clip) (h : clips ≠ []) :
    clipsDict env clips ≠ [] := by
  unfold clipsDict
  apply pyDict_ne_nil
  cases clips with
  | nil => exact absurd rfl h
  | cons c cs => simp

/-- The post-fetch part of the Clips screen never fetches clips before
control first passes through the Info screen: its only recursive clip
call forwards the non-empty value list, and both fallback and no-results
paths enter Info first. -/
theorem NFP_clipsAfterFetch (env : Env) (n : Nat) (ch : Broadcaster) (clips : List Clip)
    (hIH : ∀ c, NFPCall c → NFP (run env n c)) :
    NFP (clipsAfterFetch env (run env n) ch clips) := by
  unfold clipsAfterFetch
  dsimp only
  apply NFP_bind
  · apply NFP_ite
    · refine NFP_bind (NFP_noResults env _) fun _ => ?_
      exact NFP_bind (hIH (Call.show_info ch.broadcaster_id) trivial) fun _ => NFP_pure _
    · exact NFP_pure _
  · intro _
    apply NFP_bind
    · exact hIH (Call.items Tag.clips (dictKeys (clipsDict env clips))
        (some (Call.show_info ch.broadcaster_id))) trivial
    · intro r
      by_cases hd : clipsDict env clips = []
      · rw [hd]
        exact NFP_raise
      · cases hl : dictLookup (asStr r) (clipsDict env clips) with
        | none => exact NFP_raise
        | some c =>
          dsimp only
          refine NFP_bind (NFP_emit _ (by simp [isClipFetch])) fun _ => ?_
          refine NFP_bind (NFP_emit _ (by simp [isClipFetch])) fun _ => ?_
          refine NFP_bind ?_ fun _ => NFP_pure _
          apply hIH (Call.show_clips ch (some (dictVals (clipsDict env clips))))
          show dictVals (clipsDict env clips) ≠ []
          unfold dictVals
          simpa using hd

/-- No screen reachable from the navigation (other than a fetching Clips
entry itself) performs a clip fetch before control first passes through
the Info screen. -/
theorem NFP_run (env : Env) : ∀ (n : Nat) (c : Call), NFPCall c → NFP (run env n c) := by
  intro n
  induction n with
  | zero => intro c _; exact NFP_fuel
  | succ n ih =>
    intro c hc
    show NFP (stepBody env (run env n) c)
    cases c with
    | show_menu =>
      unfold stepBody menuBody
      apply NFP_bind
      · exact ih (Call.items Tag.root _ none) trivial
      · intro r
        apply NFP_ite
        · exact NFP_bind (ih Call.show_follows_and_online trivial) fun _ => NFP_pure _
        · apply NFP_ite _ NFP_raise
          exact NFP_bind (ih Call.show_online_follows trivial) fun _ => NFP_pure _
    | show_follows_and_online =>
      unfold stepBody fandoBody
      apply NFP_bind (ih Call.show_follows trivial)
      intro r
      cases r with
      | unit => exact NFP_raise
      | str s => exact NFP_raise
      | fol f => exact NFP_bind (ih (Call.show_info f.to_id) trivial) fun _ => NFP_pure _
    | show_follows =>
      unfold stepBody followsBody
      apply NFP_bind (NFP_userFollows env)
      intro ufs
      apply NFP_bind (NFP_emit _ (by simp [isClipFetch]))
      intro _
      apply NFP_bind
      · exact ih (Call.items Tag.follows _ (some Call.show_menu)) trivial
      · intro r
        cases followsResolve env (asStr r) with
        | none => exact NFP_raise
        | some key =>
          dsimp only
          cases dictLookup key (pyDict (ufs.map fun u => (u.to_name, u))) with
          | none => exact NFP_raise
          | some f => exact NFP_pure _
    | show_online_follows =>
      unfold stepBody onlineBody
      apply NFP_ite
      · exact NFP_bind (NFP_noResults env _) fun _ => NFP_pure _
      · apply NFP_bind
        · exact ih (Call.items Tag.online _ (some Call.show_menu)) trivial
        · intro r
          exact NFP_bind (NFP_playStream env _) fun _ => NFP_pure _
    | show_info uid =>
      unfold stepBody infoBody
      exact NFP_emitInfo_bind uid _
    | show_videos ch =>
      unfold stepBody videosBody
      apply NFP_bind (NFP_emit _ (by simp [isClipFetch]))
      intro _
      apply NFP_bind (NFP_emit _ (by simp [isClipFetch]))
      intro _
      apply NFP_ite
      · apply NFP_bind (NFP_noResults env _)
        intro _
        exact NFP_bind (ih (Call.show_info ch.broadcaster_id) trivial) fun _ => NFP_pure _
      · apply NFP_bind
        · exact ih (Call.items Tag.videos _ (some (Call.show_info ch.broadcaster_id))) trivial
        · intro r
          cases dictLookup (asStr r) (videosDict env (env.videos ch.broadcaster_id)) with
          | none => exact NFP_raise
          | some v =>
            refine NFP_bind (NFP_playStream env _) fun _ => ?_
            exact NFP_bind (ih (Call.show_videos ch) trivial) fun _ => NFP_pure _
    | show_clips ch cached =>
      unfold stepBody clipsBody
      cases cached with
      | none => exact absurd hc (by simp [NFPCall])
      | some l =>
        have hl : l ≠ [] := hc
        have hle : l.isEmpty = false := by simpa [List.isEmpty_iff] using hl
        apply NFP_bind (NFP_emit _ (by simp [isClipFetch]))
        intro _
        simp only [hle, Bool.false_eq_true, if_false]
        apply NFP_bind (NFP_pure _)
        intro clips
        exact NFP_clipsAfterFetch env n ch clips ih
    | items tag opts fb =>
      unfold stepBody
      apply NFP_bind
      · unfold itemsBody itemsInvalid
        apply NFP_bind (NFP_emit _ (by simp [isClipFetch]))
        intro _
        apply NFP_bind (NFP_getReply env)
        intro selected
        apply NFP_ite
        · cases fb with
          | none => exact NFP_pure _
          | some f =>
            dsimp only
            apply NFP_ite _ (NFP_pure _)
            refine NFP_bind (NFP_emit _ (by simp [isClipFetch])) fun _ => ?_
            exact NFP_bind (ih f (NFPCall_of_FbOK f hc)) fun _ => NFP_pure _
        · refine NFP_bind (NFP_emit _ (by simp [isClipFetch])) fun _ => ?_
          apply NFP_bind
          · exact ih (Call.items Tag.missing [missingMsg selected] none) trivial
          · intro _
            cases fb with
            | none => exact NFP_exit
            | some f =>
              dsimp only
              refine NFP_bind (NFP_emit _ (by simp [isClipFetch])) fun _ => ?_
              exact NFP_bind (ih f (NFPCall_of_FbOK f hc)) fun _ => NFP_exit
      · intro _
        exact NFP_pure _

/-- C6: within one Clips session for a channel the clip list is fetched
exactly once.  First conjunct: a run entered with no cached list
performs exactly one clip fetch before control first returns to the Info
screen, across every re-draw of the Clips screen in between (after a
clip is played, the screen re-enters itself passing the already-fetched
value list forward, which skips the fetch).  Second conjunct: a re-entry
carrying a non-empty cached list performs no fetch at all before control
returns to the Info screen. -/
theorem c6_single_clip_fetch (env : Env) (ch : Broadcaster) (s : St) (n : Nat) :
    fetchesPreInfo (traceOf (run env (n + 1) (Call.show_clips ch none)) s) = 1 ∧
      ∀ (c : Clip) (cs : List Clip) (s2 : St) (m : Nat),
        fetchesPreInfo (traceOf (run env m (Call.show_clips ch (some (c :: cs)))) s2) = 0 := by
  constructor
  · have h1 : traceOf (run env (n + 1) (Call.show_clips ch none)) s =
        Event.enterClips ch.broadcaster_id :: Event.clipFetch ch.broadcaster_id ::
          traceOf (clipsAfterFetch env (run env n) ch (env.clips ch.broadcaster_id)) s :=
      rfl
    rw [h1]
    rw [fetchesPreInfo_cons _ _ (by simp [isEnterInfo])]
    rw [fetchesPreInfo_cons _ _ (by simp [isEnterInfo])]
    have h2 : NFPtr (traceOf (clipsAfterFetch env (run env n) ch
        (env.clips ch.broadcaster_id)) s) :=
      NFP_clipsAfterFetch env n ch (env.clips ch.broadcaster_id) (NFP_run env n) s
    unfold NFPtr at h2
    rw [h2]
    simp [isClipFetch]
  · intro c cs s2 m
    exact NFP_run env m (Call.show_clips ch (some (c :: cs))) (by simp [NFPCall]) s2

/-! ## The invalid-selection path (claims C2 and C10) -/

theorem trace_bind_ex {α β : Type} (m : M α) (f : α → M β) (s : St) :
    ∃ t2, ((m >>= f) s).2.2 = (m s).2.2 ++ t2 := by
  cases hr : (m s).1 with
  | ok a => exact ⟨(f a (m s).2.1).2.2, trace_bind_ok hr⟩
  | error e => exact ⟨[], by rw [trace_bind_err hr, List.append_nil]⟩

theorem trace_emit_bind_ex {α β : Type} (e : Event) (m : M α) (k : α → M β) (s : St) :
    ∃ t, ((emit e >>= fun _ => m >>= k) s).2.2 = e :: ((m s).2.2 ++ t) := by
  obtain ⟨t2, ht2⟩ := trace_bind_ex m k s
  refine ⟨t2, ?_⟩
  rw [trace_bind_ok (rfl : (emit e s).1 = Except.ok PUnit.unit)]
  rw [show (emit e s).2.1 = s from rfl, ht2]
  rfl

/-- The invalid-selection path never returns normally: it always ends
in sys.exit(1) or in an abort propagating out of the fallback or the
informational screen. -/
theorem noRet_itemsInvalid (env : Env) (R : Call → M RVal) (fb : Option Call)
    (sel : String) : NoRet (itemsInvalid env R fb sel) := by
  unfold itemsInvalid
  apply noRet_bind_right
  intro _
  apply noRet_bind_right
  intro _
  cases fb with
  | none => exact noRet_exit
  | some f =>
    dsimp only
    exact noRet_bind_right fun _ => noRet_bind_right fun _ => noRet_exit

/-- The invalid-selection path first logs the reply, then shows the
informational missing-option screen. -/
theorem itemsInvalid_trace (env : Env) (R : Call → M RVal) (fb : Option Call)
    (sel : String) (s : St) :
    ∃ t, (itemsInvalid env R fb sel s).2.2 =
      Event.logWarn sel ::
        ((R (Call.items Tag.missing [missingMsg sel] none) s).2.2 ++ t) := by
  unfold itemsInvalid
  exact trace_emit_bind_ex (Event.logWarn sel) _ _ s

/-- Splitting a show_items run on an invalid reply: the prompt is shown,
the reply consumed, and everything else is the invalid-selection path. -/
theorem itemsBody_invalid_split (env : Env) (R : Call → M RVal) (tag : Tag)
    (opts : List String) (fb : Option Call) (s : St)
    (h : env.oracle s.tick ∉ opts) :
    itemsBody env R tag opts fb s =
      ((itemsInvalid env R fb (env.oracle s.tick) { s with tick := s.tick + 1 }).1,
        (itemsInvalid env R fb (env.oracle s.tick) { s with tick := s.tick + 1 }).2.1,
        Event.prompt tag opts ::
          (itemsInvalid env R fb (env.oracle s.tick) { s with tick := s.tick + 1 }).2.2) := by
  unfold itemsBody
  simp only [bindM_eq, mBind, emit, getReply]
  rw [if_neg h]
  simp

/-- The first event of every show_items run is its prompt. -/
theorem trace_items_head (env : Env) (n : Nat) (tag : Tag) (opts : List String)
    (fb : Option Call) (s : St) :
    ∃ t, (run env (n + 1) (Call.items tag opts fb) s).2.2 =
      Event.prompt tag opts :: t := by
  obtain ⟨t2, ht2⟩ := trace_bind_ex (itemsBody env (run env n) tag opts fb)
    (fun s2 => (pure (RVal.str s2) : M RVal)) s
  have h0 : (run env (n + 1) (Call.items tag opts fb) s).2.2 =
      (itemsBody env (run env n) tag opts fb s).2.2 ++ t2 := ht2
  have h1 : (itemsBody env (run env n) tag opts fb s).2.2 =
      Event.prompt tag opts ::
        ((getReply env >>= fun selected =>
          if selected ∈ opts then
            match fb with
            | some f =>
              if selected = env.backStr then do
                emit Event.callFallback
                let _ ← run env n f
                pure selected
              else pure selected
            | none => pure selected
          else itemsInvalid env (run env n) fb selected) s).2.2 := by
    show ((emit (Event.prompt tag opts) >>= _) s).2.2 = _
    rw [trace_bind_ok (rfl : (emit (Event.prompt tag opts) s).1 = Except.ok PUnit.unit)]
    rfl
  rw [h0, h1]
  exact ⟨_, by rw [List.cons_append]⟩

/-- The conclusion of claim C2: on a reply that is not among the offered
options, the run logs the reply, presents the informational screen with
exactly the text of handle_missing_option, never returns normally, and
every abort other than fuel exhaustion corresponds to process exit
code 1. -/
def InvalidSelectionSpec (env : Env) (tag : Tag) (opts : List String) (fb : Option Call)
    (s : St) (n : Nat) : Prop :=
  (∃ t, traceOf (run env (n + 2) (Call.items tag opts fb)) s =
    Event.prompt tag opts :: Event.logWarn (env.oracle s.tick) ::
      Event.prompt Tag.missing
        ["Option '" ++ env.oracle s.tick ++ "' selected not found."] :: t) ∧
    (∀ v, resOf (run env (n + 2) (Call.items tag opts fb)) s ≠ Except.ok v) ∧
    ∀ e, resOf (run env (n + 2) (Call.items tag opts fb)) s = Except.error e →
      e = Abort.fuelOut ∨ abortCode e = some 1

/-- C2: for every menu reply that is not in the offered option list, the
controller logs the value, presents a single-item informational screen
with exactly the text produced by handle_missing_option, and the run
never returns normally: it can only end in sys.exit(1) or in a raised
exception, both of which terminate the process with exit code 1 (the
model's fuel exhaustion stands for a run that is still navigating). -/
theorem c2_invalid_selection (env : Env) (tag : Tag) (opts : List String)
    (fb : Option Call) (s : St) (n : Nat) (h : env.oracle s.tick ∉ opts) :
    InvalidSelectionSpec env tag opts fb s n := by
  have hsplit := itemsBody_invalid_split env (run env (n + 1)) tag opts fb s h
  refine ⟨?_, ?_, ?_⟩
  · obtain ⟨t2, ht2⟩ := trace_bind_ex (itemsBody env (run env (n + 1)) tag opts fb)
      (fun s2 => (pure (RVal.str s2) : M RVal)) s
    have h0 : traceOf (run env (n + 2) (Call.items tag opts fb)) s =
        (itemsBody env (run env (n + 1)) tag opts fb s).2.2 ++ t2 := ht2
    obtain ⟨t3, ht3⟩ := itemsInvalid_trace env (run env (n + 1)) fb (env.oracle s.tick)
      { s with tick := s.tick + 1 }
    obtain ⟨t4, ht4⟩ := trace_items_head env n Tag.missing
      [missingMsg (env.oracle s.tick)] none { s with tick := s.tick + 1 }
    rw [h0, hsplit]
    dsimp only
    rw [ht3, ht4]
    refine ⟨t4 ++ (t3 ++ t2), ?_⟩
    simp [missingMsg]
  · intro v hv
    obtain ⟨e, he⟩ := noRet_error
      (noRet_itemsInvalid env (run env (n + 1)) fb (env.oracle s.tick))
      { s with tick := s.tick + 1 }
    have h1 : (itemsBody env (run env (n + 1)) tag opts fb s).1 = Except.error e := by
      rw [hsplit]
      exact he
    have h2 : resOf (run env (n + 2) (Call.items tag opts fb)) s = Except.error e :=
      fst_bind_err h1
    rw [h2] at hv
    simp at hv
  · intro e _
    cases e with
    | exitOne => exact Or.inr rfl
    | raised => exact Or.inr rfl
    | fuelOut => exact Or.inl rfl

/-- Concrete environment for the invalid-selection witnesses: the menu
replies zzz to the first prompt and the informational text afterwards. -/
def envC2 : Env :=
  { envC1 with oracle := fun i => if i = 0 then "zzz" else missingMsg "zzz" }

theorem c2_invalid_selection_witness :
    (envC2.oracle (0 : Nat) ∉ (["a", "b"] : List String)) ∧
      InvalidSelectionSpec envC2 Tag.root ["a", "b"] none ⟨none, 0⟩ 1 :=
  ⟨by decide, c2_invalid_selection envC2 Tag.root ["a", "b"] none ⟨none, 0⟩ 1 (by decide)⟩

/-- A show_items run without a bound fallback, on a reply that is among
the offered options, returns the reply after the one prompt. -/
theorem run_items_valid_nofb (env : Env) (n : Nat) (tag : Tag) (opts : List String)
    (s : St) (hin : env.oracle s.tick ∈ opts) :
    run env (n + 1) (Call.items tag opts none) s =
      (Except.ok (RVal.str (env.oracle s.tick)), { s with tick := s.tick + 1 },
        [Event.prompt tag opts]) := by
  show (stepBody env (run env n) (Call.items tag opts none)) s = _
  unfold stepBody itemsBody
  simp only [bindM_eq, mBind, emit, getReply]
  rw [if_pos hin]
  simp [pure, mPure]

/-- C10: when show_items receives a reply that is not among the offered
items and a fallback function is bound, the run is, in one equation: the
prompt, the warning log, the informational missing-option screen (here
answered by its own text, so that handle_missing_option returns), then
the fallback invocation with its entire trace, and only after the
fallback's navigation returns does sys.exit(1) run; an abort inside the
fallback propagates instead, so termination is not immediate whenever a
fallback is present. -/
theorem c10_fallback_before_exit (env : Env) (tag : Tag) (opts : List String)
    (f : Call) (s : St) (n : Nat)
    (h1 : env.oracle s.tick ∉ opts)
    (h2 : env.oracle (s.tick + 1) = missingMsg (env.oracle s.tick)) :
    run env (n + 2) (Call.items tag opts (some f)) s =
      ((match (run env (n + 1) f { s with tick := s.tick + 2 }).1 with
        | Except.ok _ => Except.error Abort.exitOne
        | Except.error e => Except.error e),
        (run env (n + 1) f { s with tick := s.tick + 2 }).2.1,
        Event.prompt tag opts :: Event.logWarn (env.oracle s.tick) ::
          Event.prompt Tag.missing [missingMsg (env.oracle s.tick)] ::
          Event.callFallback ::
          (run env (n + 1) f { s with tick := s.tick + 2 }).2.2) := by
  have hmiss : run env (n + 1)
      (Call.items Tag.missing [missingMsg (env.oracle s.tick)] none)
      { s with tick := s.tick + 1 } =
      (Except.ok (RVal.str (missingMsg (env.oracle s.tick))),
        { s with tick := s.tick + 2 },
        [Event.prompt Tag.missing [missingMsg (env.oracle s.tick)]]) := by
    rw [run_items_valid_nofb env n Tag.missing [missingMsg (env.oracle s.tick)]
      { s with tick := s.tick + 1 } (by simp [h2])]
    rw [h2]
  have hsplit := itemsBody_invalid_split env (run env (n + 1)) tag opts (some f) s h1
  have hinv : itemsInvalid env (run env (n + 1)) (some f) (env.oracle s.tick)
      { s with tick := s.tick + 1 } =
      ((match (run env (n + 1) f { s with tick := s.tick + 2 }).1 with
        | Except.ok _ => Except.error Abort.exitOne
        | Except.error e => Except.error e),
        (run env (n + 1) f { s with tick := s.tick + 2 }).2.1,
        Event.logWarn (env.oracle s.tick) ::
          Event.prompt Tag.missing [missingMsg (env.oracle s.tick)] ::
          Event.callFallback ::
          (run env (n + 1) f { s with tick := s.tick + 2 }).2.2) := by
    unfold itemsInvalid
    simp only [bindM_eq, mBind, emit, hmiss]
    cases hr : (run env (n + 1) f { s with tick := s.tick + 2 }).1 with
    | ok v => simp [hr, exitOneM]
    | error e => simp [hr]
  have hrun : run env (n + 2) (Call.items tag opts (some f)) s =
      ((itemsBody env (run env (n + 1)) tag opts (some f) >>=
        fun s2 => (pure (RVal.str s2) : M RVal)) s) := rfl
  rw [hrun]
  show mBind _ _ s = _
  unfold mBind
  rw [hsplit, hinv]
  cases hr : (run env (n + 1) f { s with tick := s.tick + 2 }).1 with
  | ok v => simp
  | error e => simp

/-- Witness for c10_fallback_before_exit: the fallback is the root menu,
whose own run at this fuel exhausts without returning; the equation
still exhibits the fallback trace before any exit. -/
theorem c10_fallback_before_exit_witness :
    ((envC2.oracle (0 : Nat) ∉ (["a", "b"] : List String)) ∧
        envC2.oracle (0 + 1) = missingMsg (envC2.oracle 0)) ∧
      run envC2 (1 + 2) (Call.items Tag.root ["a", "b"] (some Call.show_menu)) ⟨none, 0⟩ =
        ((match (run envC2 (1 + 1) Call.show_menu
            { cache := (⟨none, 0⟩ : St).cache, tick := (⟨none, 0⟩ : St).tick + 2 }).1 with
          | Except.ok _ => Except.error Abort.exitOne
          | Except.error e => Except.error e),
          (run envC2 (1 + 1) Call.show_menu
            { cache := (⟨none, 0⟩ : St).cache, tick := (⟨none, 0⟩ : St).tick + 2 }).2.1,
          Event.prompt Tag.root ["a", "b"] :: Event.logWarn (envC2.oracle (⟨none, 0⟩ : St).tick) ::
            Event.prompt Tag.missing [missingMsg (envC2.oracle (⟨none, 0⟩ : St).tick)] ::
            Event.callFallback ::
            (run envC2 (1 + 1) Call.show_menu
              { cache := (⟨none, 0⟩ : St).cache, tick := (⟨none, 0⟩ : St).tick + 2 }).2.2) :=
  ⟨⟨by decide, by decide⟩,
    c10_fallback_before_exit envC2 Tag.root ["a", "b"] Call.show_menu ⟨none, 0⟩ 1
      (by decide) (by decide)⟩

/-! ## The Follows screen and live-annotated selections (claim C3) -/

def isPlayStream : Event → Bool
  | Event.playStream _ => true
  | _ => false

/-- The live-annotated label the merged Follows screen offers in the
counterexample environment. -/
def annC3 : String := "L! bob | Speedrun (E120 viewers | 1h)"

/-- C3 counterexample environment: one follow (bob) who is live; the
menu selects bob's live-annotated merged label at the Follows screen and
replies q from then on. -/
def envC3 : Env :=
  { envC1 with
    follows := [⟨"bob", "id1"⟩]
    oracle := fun i => if i = 0 then annC3 else "q" }

/-- C3 is false on the code as stated: on the Follows screen a selection
whose label carries the live annotation does NOT transition to
PlayStream.  In this concrete run the only Follows-screen selection is
the live-annotated label of bob (the oracle's first reply equals the
annotated label, which contains the live icon), yet the trace contains
no playStream event at all and instead enters the Info screen of the
resolved follow. -/
theorem c3_counterexample :
    envC3.oracle 0 = annotate envC3 ⟨"bob", "Speedrun", 120, "t"⟩ ∧
      containsSub envC3.live_icon.toList annC3.toList = true ∧
      (traceOf (run envC3 6 Call.show_follows_and_online) ⟨none, 0⟩).any
        (fun e => e == Event.enterInfo "id1") = true ∧
      (traceOf (run envC3 6 Call.show_follows_and_online) ⟨none, 0⟩).any isPlayStream
        = false := by
  refine ⟨by decide, by decide, by decide, by decide⟩

theorem isPrefixOf_append_self : ∀ (l r : List Char), l.isPrefixOf (l ++ r) = true := by
  intro l r
  induction l with
  | nil => simp [List.isPrefixOf]
  | cons a as ih => simpa [List.isPrefixOf] using ih

theorem containsSub_of_isPrefixOf (p l : List Char) (h : p.isPrefixOf l = true) :
    containsSub p l = true := by
  cases l with
  | nil =>
    cases p with
    | nil => rfl
    | cons a as => simp [List.isPrefixOf] at h
  | cons c cs => simp [containsSub, h]

/-- The live icon occurs in every annotated label (it is its prefix). -/
theorem containsSub_live_annotate (env : Env) (c : Stream) :
    containsSub env.live_icon.toList (annotate env c).toList = true := by
  apply containsSub_of_isPrefixOf
  have h : (annotate env c).toList = env.live_icon.toList ++
      (" " ++ c.user_name ++ " " ++ env.delimiter ++ " " ++ take40 c.title
        ++ " (" ++ env.eye ++ toString c.viewer_count ++ " viewers " ++ env.delimiter ++ " "
        ++ env.liveTime c.started_at ++ ")").toList := by
    simp [annotate, toList_append, List.append_assoc]
  rw [h]
  exact isPrefixOf_append_self _ _

/-- The show_follows resolution strips the live annotation back to the
bare user name. -/
theorem followsResolve_annotate (env : Env) (c : Stream)
    (hlive : ' ' ∉ env.live_icon.toList) (hname : ' ' ∉ c.user_name.toList) :
    followsResolve env (annotate env c) = some c.user_name := by
  unfold followsResolve
  rw [if_pos (containsSub_live_annotate env c)]
  exact token1_annotate env c hlive hname

/-- A show_items run with a bound fallback, on a reply that is among the
options and differs from the back sentinel, returns the reply after the
one prompt. -/
theorem run_items_valid_notback (env : Env) (n : Nat) (tag : Tag) (opts : List String)
    (f : Call) (s : St) (hin : env.oracle s.tick ∈ opts)
    (hnb : env.oracle s.tick ≠ env.backStr) :
    run env (n + 1) (Call.items tag opts (some f)) s =
      (Except.ok (RVal.str (env.oracle s.tick)), { s with tick := s.tick + 1 },
        [Event.prompt tag opts]) := by
  show (stepBody env (run env n) (Call.items tag opts (some f))) s = _
  unfold stepBody itemsBody
  simp only [bindM_eq, mBind, emit, getReply]
  rw [if_pos hin]
  rw [if_neg hnb]
  simp [pure, mPure]

/-- C3 amended: on the Follows screen, a selection whose label carries
the live annotation has the annotation stripped and is resolved to the
bare channel name, and the Follows screen's only invocation path (the
Root-invoked show_follows_and_online) then proceeds to the Info screen
of the resolved follow - not to PlayStream; the direct-to-PlayStream
behaviour belongs to the separate Live-followed screen
(show_online_follows).  Stated for a single followed channel that is
live: after the live fetch and the merged prompt offering exactly the
annotated label, the run enters Info for the follow whose to_name is the
stream's user_name, and the annotated selection was resolved through the
name dict (the run would raise instead if stripping had failed). -/
theorem c3_follows_live_selection_goes_to_info (env : Env) (f : Follow) (c : Stream)
    (s : St) (n : Nat)
    (hcache : s.cache = some [f])
    (hstreams : env.liveStreams = [c])
    (hname : f.to_name = c.user_name)
    (hlive_sp : ' ' ∉ env.live_icon.toList)
    (hname_sp : ' ' ∉ c.user_name.toList)
    (hback : annotate env c ≠ env.backStr)
    (horacle : env.oracle s.tick = annotate env c) :
    ∃ t, traceOf (run env (n + 3) Call.show_follows_and_online) s =
      Event.liveFetch :: Event.prompt Tag.follows [annotate env c] ::
        Event.enterInfo f.to_id :: t := by
  have hmerged : merge_with_online env (pySorted (dictKeys (pyDict
      (([f] : List Follow).map fun u => (u.to_name, u))))) = [annotate env c] := by
    show merge_with_online env [f.to_name] = _
    unfold merge_with_online
    rw [hstreams]
    simp only [List.foldl_cons, List.foldl_nil, mergeStep]
    rw [if_pos (by rw [hname]; exact List.mem_singleton.mpr rfl)]
    rw [hname]
    simp [pyIndex]
  have hfollows : run env (n + 2) Call.show_follows s =
      (Except.ok (RVal.fol f), { s with tick := s.tick + 1 },
        [Event.liveFetch, Event.prompt Tag.follows [annotate env c]]) := by
    show (stepBody env (run env (n + 1)) Call.show_follows) s = _
    unfold stepBody followsBody
    simp only [bindM_eq, mBind, emit]
    rw [show userFollowsM env s = (Except.ok ([f] : List Follow), s, []) from by
      unfold userFollowsM
      rw [hcache]
      rfl]
    simp only [hmerged]
    rw [run_items_valid_notback env n Tag.follows [annotate env c] Call.show_menu s
      (by rw [horacle]; exact List.mem_singleton.mpr rfl) (by rw [horacle]; exact hback)]
    simp only [horacle]
    rw [show asStr (RVal.str (annotate env c)) = annotate env c from rfl]
    rw [followsResolve_annotate env c hlive_sp hname_sp]
    simp only [dictLookup]
    rw [if_pos hname]
    rfl
  show ∃ t, ((run env (n + 2) Call.show_follows >>= fun r =>
      match r with
      | RVal.fol f2 => do
        let _ ← run env (n + 2) (Call.show_info f2.to_id)
        pure RVal.unit
      | _ => raiseM) s).2.2 = _
  rw [trace_bind_ok (show (run env (n + 2) Call.show_follows s).1 =
    Except.ok (RVal.fol f) from by rw [hfollows])]
  rw [show (run env (n + 2) Call.show_follows s).2.2 =
    [Event.liveFetch, Event.prompt Tag.follows [annotate env c]] from by rw [hfollows]]
  rw [show (run env (n + 2) Call.show_follows s).2.1 =
    { s with tick := s.tick + 1 } from by rw [hfollows]]
  dsimp only
  obtain ⟨t2, ht2⟩ := trace_bind_ex (run env (n + 2) (Call.show_info f.to_id))
    (fun _ => (pure RVal.unit : M RVal)) { s with tick := s.tick + 1 }
  rw [ht2]
  obtain ⟨t3, ht3⟩ := trace_info_head env (n + 1) f.to_id { s with tick := s.tick + 1 }
  rw [show (run env (n + 2) (Call.show_info f.to_id) { s with tick := s.tick + 1 }).2.2 =
    Event.enterInfo f.to_id :: t3 from ht3]
  exact ⟨t3 ++ t2, by simp⟩

theorem c3_follows_live_selection_goes_to_info_witness :
    ((⟨some [⟨"bob", "id1"⟩], 0⟩ : St).cache = some [⟨"bob", "id1"⟩] ∧
        envC3.liveStreams = [⟨"bob", "Speedrun", 120, "t"⟩] ∧
        (⟨"bob", "id1"⟩ : Follow).to_name = (⟨"bob", "Speedrun", 120, "t"⟩ : Stream).user_name ∧
        annotate envC3 ⟨"bob", "Speedrun", 120, "t"⟩ ≠ envC3.backStr ∧
        envC3.oracle (⟨some [⟨"bob", "id1"⟩], 0⟩ : St).tick =
          annotate envC3 ⟨"bob", "Speedrun", 120, "t"⟩) ∧
      ∃ t, traceOf (run envC3 (0 + 3) Call.show_follows_and_online)
          ⟨some [⟨"bob", "id1"⟩], 0⟩ =
        Event.liveFetch ::
          Event.prompt Tag.follows [annotate envC3 ⟨"bob", "Speedrun", 120, "t"⟩] ::
          Event.enterInfo "id1" :: t :=
  ⟨⟨rfl, rfl, rfl, by decide, by decide⟩,
    c3_follows_live_selection_goes_to_info envC3 ⟨"bob", "id1"⟩
      ⟨"bob", "Speedrun", 120, "t"⟩ ⟨some [⟨"bob", "id1"⟩], 0⟩ 0 rfl rfl rfl
      (by decide) (by decide) (by decide) (by decide)⟩

end PyTwitch
